import Mathlib

/-!
# Disk-set assembler of unityfs (`src/init.c`)

A shallow embedding of `src/init.c` and a verification of its specification.

Conventions of the embedding.

* A C string is the list of its characters, without the terminating NUL
  (`CStr`).  A nullable `char*` is an `Option CStr`.
* A pointer to a heap record that may be `NULL` is an `Option` of the record;
  callbacks that update a record through the pointer return the updated record.
* Handlers that can dereference a null pointer return an `Option`: `none`
  stands for the fault (undefined behaviour in C), `some r` for a normal
  return with result `r`.
* The effects the code has on its collaborators (the tokenizer, the file
  system, the disk registry, the handle's configuration block) are recorded in
  order in a trace (`Effect`), kept next to the handle in `World`.
* Collaborators whose code is outside `src/` are parameters (`Extern`,
  `ConfigFile`, the result of `unityfs_create`).
-/

namespace UnityFS

/-! ## Strings and libc -/

/-- The characters of a C string (terminating NUL excluded). -/
abbrev CStr := List Char

/-- The C string held by a character buffer: the bytes before the first NUL. -/
def cstr (buf : List Char) : CStr := buf.takeWhile (fun c => c != Char.ofNat 0)

/-- Model of `strcmp(a, b) == 0`. -/
def strcmp_zero (a b : CStr) : Bool := a == b

/-- Model of `strcasecmp(a, b) == 0` in the C locale (ASCII case folding). -/
def strcasecmp_zero (a b : CStr) : Bool := a.map Char.toLower == b.map Char.toLower

/-- Model of `isspace` in the C locale. -/
def isspace (c : Char) : Bool :=
  c == ' ' || c == '\t' || c == '\n' || c == Char.ofNat 11 || c == Char.ofNat 12 || c == '\r'

/-- Model of `isdigit`. -/
def isdigit (c : Char) : Bool := 48 ≤ c.toNat && c.toNat ≤ 57

def INT_MAX : Int := 2147483647

def LONG_MAX : Int := 9223372036854775807

def LONG_MIN : Int := -9223372036854775808

/-- The digit loop of `strtol` in base 10: accumulates the longest prefix of
decimal digits. -/
def strtol_digits (acc : Nat) : List Char → Nat
  | [] => acc
  | c :: cs => if isdigit c then strtol_digits (10 * acc + (c.toNat - 48)) cs else acc

/-- Model of `strtol(s, NULL, 10)` on an LP64 platform: leading white space is
skipped, an optional sign is read, then the longest run of digits; the result
saturates at `LONG_MIN` and `LONG_MAX`. -/
def strtol (s : CStr) : Int :=
  let r := s.dropWhile isspace
  if r.head? = some '-' then max (-(strtol_digits 0 r.tail : Int)) LONG_MIN
  else if r.head? = some '+' then min (strtol_digits 0 r.tail : Int) LONG_MAX
  else min (strtol_digits 0 r : Int) LONG_MAX

/-- Conversion of a `long` to `int` (two's complement wrap-around). -/
def long_to_int (x : Int) : Int := (x + 2 ^ 31) % 2 ^ 32 - 2 ^ 31

/-- Model of `atoi(s)`, which is `(int) strtol(s, NULL, 10)`. -/
def atoi (s : CStr) : Int := long_to_int (strtol s)

/-- Model of one successful `getline` call on the unread part of a stream:
the bytes up to and including the first newline, and the bytes left. -/
def getline_split : List Char → List Char × List Char
  | [] => ([], [])
  | c :: cs =>
    if c = '\n' then ([c], cs)
    else ((c :: (getline_split cs).1), (getline_split cs).2)

/-- Model of `getline(&line, &len, f)`: `none` is the return value `-1` (end of
file, nothing read); otherwise the line read, delimiter included, and the rest
of the stream.  The returned length `nread` is the length of the line. -/
def getline (stream : List Char) : Option (List Char × List Char) :=
  match stream with
  | [] => none
  | _ :: _ => some (getline_split stream)

/-! ## Data model -/

/-- A disk registered on the handle. -/
structure Disk where
  mountpoint : Option CStr
  flags : Nat
  deriving DecidableEq, Repr

/-- The fields of `struct unityfs` that `init.c` touches. -/
structure unityfs where
  mountpoint : Option CStr
  disk_cache_timeout : Nat
  disks_count : Nat
  disks : List Disk
  deriving DecidableEq, Repr

/-- Observable effects of the initialisation, in program order. -/
inductive Effect where
  | config_read (filename : CStr)
  | fopen (filename : CStr)
  | add_disk (mountpoint : Option CStr) (flags : Nat)
  | set_timeout (timeout : Nat)
  deriving DecidableEq, Repr

/-- The handle together with the trace of effects performed so far. -/
structure World where
  fs : unityfs
  trace : List Effect
  deriving DecidableEq, Repr

/-- Collaborators defined outside `src/`: the flag constant of `unityfs.h` and
the acceptance policy of the disk registry. -/
structure Extern where
  UFS_DISK_NO_SHARED_WRITES : Nat
  accepts : unityfs → Option CStr → Nat → Bool

/-- Modelled from the spec: `ufs_add_disk` (declared in `disk.h`, defined
outside `src/`).  The registration call takes the handle, a mountpoint string
and a flag word; when the registry accepts the entry it is added to the disk
collection and the disk count is incremented.  Whether an entry is accepted is
the registry's policy (`Extern.accepts`).  Every call is recorded in the
trace. -/
def ufs_add_disk (X : Extern) (w : World) (mountpoint : Option CStr) (flags : Nat) : World :=
  { fs :=
      if X.accepts w.fs mountpoint flags then
        { w.fs with
          disks := w.fs.disks ++ [{ mountpoint := mountpoint, flags := flags }]
          disks_count := w.fs.disks_count + 1 }
      else w.fs
    trace := w.trace ++ [Effect.add_disk mountpoint flags] }

/-- The assignment `fs->config->disk_cache_timeout = t`, recorded in the trace. -/
def set_disk_cache_timeout (w : World) (t : Nat) : World :=
  { fs := { w.fs with disk_cache_timeout := t }
    trace := w.trace ++ [Effect.set_timeout t] }

def SECTION_GLOBAL : CStr := "global".data

/-! ## The structured-format session -/

/-- Model of `parse_bool(str, &value)`: the first component is the returned
`res`, the second the content of `*value` after the call (`value` before). -/
def parse_bool (str : CStr) (value : Bool) : Bool × Bool :=
  let r1 : Bool × Bool :=
    if strcmp_zero str "true".data || strcmp_zero str "yes".data then (true, true)
    else (false, value)
  if strcmp_zero str "false".data || strcmp_zero str "no".data then (true, false)
  else r1

/-- Record `struct config_disk_entry`. -/
structure config_disk_entry where
  mountpoint : Option CStr
  flags : Nat
  deriving DecidableEq, Repr

/-- Record `struct config_section`; `name` is `none` when `strdup` returned
`NULL`, `data` is `none` for a null data pointer. -/
structure config_section where
  name : Option CStr
  data : Option config_disk_entry
  deriving DecidableEq, Repr

/-- Outcomes of the three allocation requests of `on_section_start`
(`true` = the request succeeds). -/
structure Allocs where
  calloc_section : Bool
  strdup_name : Bool
  calloc_entry : Bool
  deriving DecidableEq, Repr

/-- All three allocations succeed. -/
def Allocs.ok : Allocs := { calloc_section := true, strdup_name := true, calloc_entry := true }

/-- Model of `on_section_start(name, user_data)`; the result is the returned
pointer (`none` = `NULL`). -/
def on_section_start (a : Allocs) (name : CStr) : Option config_section :=
  if a.calloc_section then
    let sec : config_section := { name := none, data := none }
    let sec : config_section := { sec with name := if a.strdup_name then some name else none }
    let sec : config_section :=
      if !strcasecmp_zero name SECTION_GLOBAL then
        { sec with data := if a.calloc_entry then some { mountpoint := none, flags := 0 } else none }
      else sec
    some sec
  else none

/-- Model of `on_section_end(section_data, user_data)`, with `user_data` the
handle.  The outer `none` is a null-pointer fault (`strcasecmp` on a null
name). -/
def on_section_end (X : Extern) (section_data : Option config_section) (w : World) :
    Option World :=
  match section_data with
  | none => some w
  | some sec =>
    match sec.data with
    | none => some w
    | some entry =>
      match sec.name with
      | none => none
      | some name =>
        if !strcasecmp_zero name SECTION_GLOBAL then
          some (ufs_add_disk X w entry.mountpoint entry.flags)
        else some w

/-- The disk branch of `on_option_found` (the `else` block), acting on the
data pointer `entry` of the section.  `none` is a null-pointer fault. -/
def on_option_found_disk (X : Extern) (entry : Option config_disk_entry)
    (key value : CStr) (strdup_ok : Bool) : Option (Option config_disk_entry) :=
  let r1 : Option (Option config_disk_entry) :=
    if strcmp_zero key "mountpoint".data then
      match entry with
      | none => none
      | some e => some (some { e with mountpoint := if strdup_ok then some value else none })
    else some entry
  match r1 with
  | none => none
  | some entry1 =>
    let no_writes := false
    if strcmp_zero key "no shared writes".data && (parse_bool value no_writes).1
        && (parse_bool value no_writes).2 then
      match entry1 with
      | none => none
      | some e => some (some { e with flags := e.flags ||| X.UFS_DISK_NO_SHARED_WRITES })
    else some entry1

/-- Model of `on_option_found(section_data, key, value, user_data)`, with
`user_data` the handle and `strdup_ok` the outcome of the `strdup(value)`
request (made only for the key `mountpoint`).  The result is the section
record after the call and the new world; the outer `none` is a null-pointer
fault. -/
def on_option_found (X : Extern) (section_data : Option config_section)
    (key value : CStr) (strdup_ok : Bool) (w : World) :
    Option (Option config_section × World) :=
  match section_data with
  | none => some (none, w)
  | some sec =>
    match sec.name with
    | none => none
    | some name =>
      if strcasecmp_zero name SECTION_GLOBAL then
        if strcmp_zero key "disk cache timeout".data then
          let timeout := atoi value
          if timeout > 0 then
            some (some sec, set_disk_cache_timeout w (timeout.toNat % 2 ^ 32))
          else some (some sec, w)
        else some (some sec, w)
      else
        match on_option_found_disk X sec.data key value strdup_ok with
        | none => none
        | some entry => some (some { sec with data := entry }, w)

/-- An event the tokenizer fires, together with the outcomes of the
allocation requests its handler makes. -/
inductive Event where
  | section_start (name : CStr) (a : Allocs)
  | option_found (key value : CStr) (strdup_ok : Bool)
  | section_end
  deriving DecidableEq, Repr

/-- Modelled from the spec: the event loop of `config_read_file` (declared in
`config_file.h`, defined outside `src/`).  The tokenizer calls section start
with the section name and keeps the returned context; it passes the context
to every option found and to section end, after which the context is no
longer used (`none`).  Before the first section the context is null. -/
def run_events (X : Extern) : List Event → Option config_section → World → Option World
  | [], _, w => some w
  | Event.section_start name a :: es, _, w => run_events X es (on_section_start a name) w
  | Event.option_found key value ok :: es, cur, w =>
    match on_option_found X cur key value ok w with
    | none => none
    | some r => run_events X es r.1 r.2
  | Event.section_end :: es, cur, w =>
    match on_section_end X cur w with
    | none => none
    | some w1 => run_events X es none w1

/-- What a path holds: the events the tokenizer fires for it (none for a
missing file) and the bytes `fopen`/`getline` deliver (`none` when the file
cannot be opened). -/
structure ConfigFile where
  events : List Event
  text : Option (List Char)

/-- Modelled from the spec: `config_read_file(filename, &cfg_handlers, fs)`
drives the three handlers with the events of the file. -/
def config_read_file (X : Extern) (files : CStr → ConfigFile) (filename : CStr) (w : World) :
    Option World :=
  run_events X (files filename).events none
    { w with trace := w.trace ++ [Effect.config_read filename] }

/-! ## The legacy-format loader -/

/-- The `while` loop of `add_disks_from_file`; `fuel` bounds the number of
iterations. -/
def add_disks_loop (X : Extern) : Nat → List Char → World → World
  | 0, _, w => w
  | fuel + 1, stream, w =>
    match getline stream with
    | none => w
    | some (line, rest) =>
      let line1 :=
        if line.getLast? = some '\n' then line.dropLast else line
      add_disks_loop X fuel rest (ufs_add_disk X w (some (cstr line1)) 0)

/-- Model of `add_disks_from_file(fs, filename)`.  Every `getline` call
consumes at least one byte, so the length of the text bounds the number of
iterations. -/
def add_disks_from_file (X : Extern) (files : CStr → ConfigFile) (filename : CStr)
    (w : World) : World :=
  let w1 : World := { w with trace := w.trace ++ [Effect.fopen filename] }
  match (files filename).text with
  | none => w1
  | some text => add_disks_loop X text.length text w1

/-! ## Initialisation -/

/-- The `for` loop of `ufs_init` over a null-terminated array of paths. -/
def ufs_init_loop (X : Extern) (files : CStr → ConfigFile) : List CStr → World → Option World
  | [], w => some w
  | filename :: rest, w =>
    match config_read_file X files filename w with
    | none => none
    | some w1 =>
      let w2 := if w1.fs.disks_count = 0 then add_disks_from_file X files filename w1 else w1
      if w2.fs.disks_count > 0 then some w2
      else ufs_init_loop X files rest w2

def config_file_locations : List CStr := ["/etc/unityfs.conf".data, "unityfs.conf".data]

/-- Model of `ufs_init(mountpoint)`.  `created` is the result of
`unityfs_create()` (`none` = `NULL`).  The outer `none` is a fault, the inner
`none` the return value `NULL`. -/
def ufs_init (X : Extern) (files : CStr → ConfigFile) (created : Option unityfs)
    (mountpoint : Option CStr) : Option (Option World) :=
  match created with
  | none => some none
  | some fs =>
    let fs1 : unityfs := { fs with mountpoint := mountpoint }
    match ufs_init_loop X files config_file_locations { fs := fs1, trace := [] } with
    | none => none
    | some w => some (some w)

/-! ## Vocabulary of the specification -/

/-- One option line of a section, with the outcome of the `strdup(value)`
request its handler may make. -/
structure OptionLine where
  key : CStr
  value : CStr
  strdup_ok : Bool
  deriving DecidableEq, Repr

/-- One section of a structured file: its name, the outcomes of the
allocations made at its start, and its option lines. -/
structure SectionBlock where
  name : CStr
  allocs : Allocs
  options : List OptionLine
  deriving DecidableEq, Repr

/-- The events of the option lines of a section. -/
def option_events (opts : List OptionLine) : List Event :=
  opts.map (fun o => Event.option_found o.key o.value o.strdup_ok)

/-- The events of one section: one start, its options, one end. -/
def SectionBlock.events (s : SectionBlock) : List Event :=
  Event.section_start s.name s.allocs :: (option_events s.options ++ [Event.section_end])

/-- A well-formed event sequence: the events of a list of sections. -/
def events_of : List SectionBlock → List Event
  | [] => []
  | s :: rest => s.events ++ events_of rest

/-- The section name is the reserved name, ignoring ASCII case. -/
def SectionBlock.is_global (s : SectionBlock) : Bool := strcasecmp_zero s.name SECTION_GLOBAL

/-- All allocation requests of the section succeed. -/
def SectionBlock.allocs_ok (s : SectionBlock) : Bool :=
  s.allocs.calloc_section && s.allocs.strdup_name && s.allocs.calloc_entry
    && s.options.all (fun o => o.strdup_ok)

/-- All allocation requests made while handling the event succeed. -/
def Event.allocs_ok : Event → Bool
  | Event.section_start _ a => a.calloc_section && a.strdup_name && a.calloc_entry
  | Event.option_found _ _ ok => ok
  | Event.section_end => true

/-- The value of the last option with key `mountpoint`, if there is one. -/
def last_mountpoint (opts : List OptionLine) : Option CStr :=
  ((opts.filter (fun o => o.key == "mountpoint".data)).getLast?).map (fun o => o.value)

/-- Some option has key `no shared writes` and value `true` or `yes`. -/
def wants_no_shared_writes (opts : List OptionLine) : Bool :=
  opts.any (fun o => o.key == "no shared writes".data
    && (o.value == "true".data || o.value == "yes".data))

/-- The lines of a text: the pieces between newlines, a trailing empty piece
dropped. -/
def split_lines (text : List Char) : List (List Char) :=
  let pieces := text.splitOn '\n'
  if pieces.getLast? = some [] then pieces.dropLast else pieces

/-- The paths handed to `config_read_file`, in order. -/
def reads : List Effect → List CStr
  | [] => []
  | Effect.config_read p :: t => p :: reads t
  | _ :: t => reads t

/-- The paths opened by the legacy loader, in order. -/
def fopens : List Effect → List CStr
  | [] => []
  | Effect.fopen p :: t => p :: fopens t
  | _ :: t => fopens t

/-- The registration calls of a trace, in order. -/
def regs : List Effect → List Disk
  | [] => []
  | Effect.add_disk m f :: t => { mountpoint := m, flags := f } :: regs t
  | _ :: t => regs t

/-- The timeout writes of a trace, in order. -/
def timeout_writes : List Effect → List Nat
  | [] => []
  | Effect.set_timeout n :: t => n :: timeout_writes t
  | _ :: t => timeout_writes t

/-! ## Relations used in the proofs -/

/-- World `w1` is reached from `w` by performing the effects `d`: the trace
grows by `d`, the mountpoint field is kept, the disk collection is kept when
`d` has no registration call, and it grows by the registration calls of `d`
when the registry accepts every entry. -/
def grows (X : Extern) (w w1 : World) (d : List Effect) : Prop :=
  w1.trace = w.trace ++ d ∧ w1.fs.mountpoint = w.fs.mountpoint ∧
  (regs d = [] → w1.fs.disks = w.fs.disks ∧ w1.fs.disks_count = w.fs.disks_count) ∧
  ((∀ fs m f, X.accepts fs m f = true) →
    w1.fs.disks = w.fs.disks ++ regs d ∧
    w1.fs.disks_count = w.fs.disks_count + (regs d).length)

/-- Invariant of a section record: the name is present and the data pointer
is non-null exactly for a section whose name is not the reserved name. -/
def section_inv (sec : config_section) : Prop :=
  ∃ name, sec.name = some name ∧ sec.data.isSome = !strcasecmp_zero name SECTION_GLOBAL

/-! ## Concrete inputs used by the witnesses -/

/-- A registry that accepts every entry, with the flag constant 1. -/
def example_extern : Extern := { UFS_DISK_NO_SHARED_WRITES := 1, accepts := fun _ _ _ => true }

/-- A freshly created handle: no disk, timeout unset. -/
def example_handle : unityfs :=
  { mountpoint := none, disk_cache_timeout := 0, disks_count := 0, disks := [] }

/-- Example file system: `/etc/unityfs.conf` is missing (as is every other
path) and `unityfs.conf` is a legacy file with the two lines `/x` and `/y`. -/
def example_files : CStr → ConfigFile := fun p =>
  if p = "unityfs.conf".data then { events := [], text := some "/x\n/y\n".data }
  else { events := [], text := none }

/-- Example file system: `unityfs.conf` holds only a global section, which
the tokenizer reports as one section with a timeout option; every other path
is missing. -/
def example_global_only_files : CStr → ConfigFile := fun p =>
  if p = "unityfs.conf".data then
    { events := events_of
        [{ name := "global".data, allocs := Allocs.ok,
           options := [{ key := "disk cache timeout".data, value := "30".data,
                         strdup_ok := true }] }]
      text := some "[global]\ndisk cache timeout = 30\n".data }
  else { events := [], text := none }

/-! ## Textual shapes of an option value -/

/-- An optional sign: nothing, `+` or `-`. -/
def is_sign (s : List Char) : Prop := s = [] ∨ s = ['+'] ∨ s = ['-']

/-- A decimal numeral of `n`: its canonical representation after `k` leading
zeros. -/
def numeral (k n : Nat) : List Char := List.replicate k '0' ++ (Nat.repr n).data

/-- The text `rest` does not start with a decimal digit. -/
def no_digit_next (rest : List Char) : Prop := ∀ c, rest.head? = some c → isdigit c = false

/-- The value starts with no number: after optional white space and an
optional sign no decimal digit follows. -/
def no_number (value : List Char) : Prop :=
  ∃ ws sign rest, value = ws ++ (sign ++ rest) ∧ (∀ c ∈ ws, isspace c = true) ∧
    is_sign sign ∧ no_digit_next rest ∧
    (sign = [] → ∀ c, rest.head? = some c → isspace c = false ∧ c ≠ '+' ∧ c ≠ '-')

/-- The value starts with a number: optional white space, the sign `sign`,
a decimal numeral of `n`, and then anything that does not continue the
digits. -/
def leading_number (value sign : List Char) (n : Nat) : Prop :=
  ∃ ws k rest, value = ws ++ (sign ++ (numeral k n ++ rest)) ∧
    (∀ c ∈ ws, isspace c = true) ∧ no_digit_next rest

/-! ## Verification -/

/-! ### libc facts -/

theorem strcmp_zero_iff (a b : CStr) : strcmp_zero a b = true ↔ a = b := by
  simp [strcmp_zero]

theorem digitChar_isdigit (k : Nat) (hk : k < 10) :
    isdigit (Nat.digitChar k) = true ∧ (Nat.digitChar k).toNat - 48 = k := by
  interval_cases k <;> decide

theorem strtol_digits_toDigitsCore (fuel : Nat) :
    ∀ n ds, n < fuel → ∃ k, ∀ acc,
      strtol_digits acc (Nat.toDigitsCore 10 fuel n ds) = strtol_digits (acc * 10 ^ k + n) ds := by
  induction fuel with
  | zero => intro n ds h; omega
  | succ fuel ih =>
    intro n ds h
    have hd := digitChar_isdigit (n % 10) (Nat.mod_lt _ (by decide))
    by_cases h0 : n / 10 = 0
    · refine ⟨1, fun acc => ?_⟩
      have hn : n % 10 = n := Nat.mod_eq_of_lt (by omega)
      simp only [Nat.toDigitsCore, h0, if_true, strtol_digits, hd.1, hd.2]
      congr 1
      omega
    · obtain ⟨k, hk⟩ := ih (n / 10) (Nat.digitChar (n % 10) :: ds) (by omega)
      refine ⟨k + 1, fun acc => ?_⟩
      simp only [Nat.toDigitsCore, h0, if_false, hk, strtol_digits, hd.1, hd.2, if_true]
      congr 1
      have := Nat.div_add_mod n 10
      rw [pow_succ]
      nlinarith [Nat.div_add_mod n 10]

theorem toDigitsCore_head (fuel : Nat) :
    ∀ n ds, n < fuel → ∃ c rest, Nat.toDigitsCore 10 fuel n ds = c :: rest ∧ isdigit c = true := by
  induction fuel with
  | zero => intro n ds h; omega
  | succ fuel ih =>
    intro n ds h
    have hd := digitChar_isdigit (n % 10) (Nat.mod_lt _ (by decide))
    by_cases h0 : n / 10 = 0
    · exact ⟨_, ds, by simp [Nat.toDigitsCore, h0], hd.1⟩
    · obtain ⟨c, rest, hc, hcd⟩ := ih (n / 10) (Nat.digitChar (n % 10) :: ds) (by omega)
      exact ⟨c, rest, by simp [Nat.toDigitsCore, h0, hc], hcd⟩

theorem isdigit_not_space_sign (c : Char) (h : isdigit c = true) :
    isspace c = false ∧ c ≠ '-' ∧ c ≠ '+' := by
  refine ⟨?_, ?_, ?_⟩
  · simp only [isspace, Bool.or_eq_false_iff, beq_eq_false_iff_ne, ne_eq]
    refine ⟨⟨⟨⟨⟨?_, ?_⟩, ?_⟩, ?_⟩, ?_⟩, ?_⟩ <;> (intro hc; subst hc; revert h; decide)
  · intro hc; subst hc; revert h; decide
  · intro hc; subst hc; revert h; decide

theorem strtol_repr (n : Nat) (h : (n : Int) ≤ LONG_MAX) : strtol (Nat.repr n).data = n := by
  obtain ⟨c, rest, hc, hcd⟩ := toDigitsCore_head (n + 1) n [] (by omega)
  obtain ⟨k, hk⟩ := strtol_digits_toDigitsCore (n + 1) n [] (by omega)
  have hv := hk 0
  obtain ⟨hs, hm, hp⟩ := isdigit_not_space_sign c hcd
  have hdata : (Nat.repr n).data = c :: rest := by
    simp only [Nat.repr, Nat.toDigits, List.asString]; exact hc
  have hval : strtol_digits 0 (c :: rest) = n := by
    rw [← hc, hv]; simp [strtol_digits]
  unfold strtol
  simp only [hdata, List.dropWhile_cons, hs, Bool.false_eq_true, if_false]
  rw [if_neg (by simp [hm]), if_neg (by simp [hp]), hval]
  exact min_eq_left h

theorem atoi_repr (n : Nat) (h : (n : Int) ≤ INT_MAX) : atoi (Nat.repr n).data = n := by
  have h2 : (n : Int) ≤ LONG_MAX := le_trans h (by decide)
  unfold atoi long_to_int
  rw [strtol_repr n h2]
  unfold INT_MAX at h
  omega

theorem parse_bool_eq (t : CStr) (v : Bool) : parse_bool t v =
    if t = "false".data ∨ t = "no".data then (true, false)
    else if t = "true".data ∨ t = "yes".data then (true, true) else (false, v) := by
  simp [parse_bool, strcmp_zero]

/-- Claim C10: for every string `s`, `parse_bool` reports success with value
true exactly when `s` is `true` or `yes`, success with value false exactly when
`s` is `false` or `no`, and for every other string (such as `True`, `1`, the
empty string, `TRUE2`) it reports failure and leaves the output value as it
was. -/
theorem parse_bool_vocabulary (s : CStr) (v : Bool) :
    (parse_bool s v = (true, true) ↔ (s = "true".data ∨ s = "yes".data)) ∧
    (parse_bool s v = (true, false) ↔ (s = "false".data ∨ s = "no".data)) ∧
    (parse_bool s v = (false, v) ↔
      ¬ (s = "true".data ∨ s = "yes".data ∨ s = "false".data ∨ s = "no".data)) ∧
    parse_bool "True".data v = (false, v) ∧ parse_bool "1".data v = (false, v) ∧
    parse_bool [] v = (false, v) ∧ parse_bool "TRUE2".data v = (false, v) := by
  have key : ∀ t : CStr, parse_bool t v =
      if t = "false".data ∨ t = "no".data then (true, false)
      else if t = "true".data ∨ t = "yes".data then (true, true) else (false, v) :=
    fun t => parse_bool_eq t v
  refine ⟨?_, ?_, ?_, ?_, ?_, ?_, ?_⟩
  · rw [key]
    by_cases h1 : s = "false".data ∨ s = "no".data
    · rw [if_pos h1]
      rcases h1 with h | h <;> subst h <;> decide
    · rw [if_neg h1]
      by_cases h2 : s = "true".data ∨ s = "yes".data
      · simp [h2]
      · simp [h2]
  · rw [key]
    by_cases h1 : s = "false".data ∨ s = "no".data
    · simp [h1]
    · rw [if_neg h1]
      by_cases h2 : s = "true".data ∨ s = "yes".data
      · simp [h2, h1]
      · simp [h2, h1]
  · rw [key]
    by_cases h1 : s = "false".data ∨ s = "no".data
    · rw [if_pos h1]
      constructor
      · intro h; simp at h
      · intro h; exact absurd (by tauto) h
    · rw [if_neg h1]
      by_cases h2 : s = "true".data ∨ s = "yes".data
      · rw [if_pos h2]
        constructor
        · intro h; simp at h
        · intro h; exact absurd (by tauto) h
      · rw [if_neg h2]
        simp only [true_iff]
        tauto
  · rw [key]; rfl
  · rw [key]; rfl
  · rw [key]; rfl
  · rw [key]; rfl

theorem on_option_found_disk_eq (X : Extern) (e : config_disk_entry) (key value : CStr)
    (ok : Bool) :
    on_option_found_disk X (some e) key value ok =
      some (some
        { mountpoint :=
            if key = "mountpoint".data then (if ok then some value else none) else e.mountpoint
          flags :=
            if key = "no shared writes".data ∧ (value = "true".data ∨ value = "yes".data) then
              e.flags ||| X.UFS_DISK_NO_SHARED_WRITES
            else e.flags }) := by
  have hne : "mountpoint".data ≠ "no shared writes".data := by decide
  unfold on_option_found_disk
  simp only [strcmp_zero, beq_iff_eq, parse_bool_eq]
  by_cases hk : key = "mountpoint".data
  · subst hk
    simp [hne]
  · by_cases hk2 : key = "no shared writes".data
    · subst hk2
      by_cases hf : value = "false".data ∨ value = "no".data
      · have hnt : ¬ (value = "true".data ∨ value = "yes".data) := by
          rcases hf with h | h <;> subst h <;> decide
        simp [hk, hf, hnt]
      · by_cases ht : value = "true".data ∨ value = "yes".data
        · simp [hk, hf, ht]
        · simp [hk, hf, ht]
    · simp [hk, hk2]

/-- Claim C6, counterexample: on a disk entry whose no-shared-writes flag is
set (flags 1, the flag constant being 1), the option `no shared writes = no`
leaves the entry as it was; the flag is still set, not cleared. -/
theorem no_shared_writes_no_keeps_flag :
    on_option_found example_extern
        (some { name := some "disk1".data, data := some { mountpoint := some "/a".data, flags := 1 } })
        "no shared writes".data "no".data true { fs := example_handle, trace := [] }
      = some (some { name := some "disk1".data,
                     data := some { mountpoint := some "/a".data, flags := 1 } },
              { fs := example_handle, trace := [] })
    ∧ (1 : Nat) &&& example_extern.UFS_DISK_NO_SHARED_WRITES ≠ 0 := by
  decide

/-- Claim C6, amended: on every disk-section entry, the option with key
`no shared writes` sets the flag when the value is `true` or `yes` and leaves
the flags as they were for every other value, `false` and `no` included; the
mountpoint, the section name and the world are unchanged. -/
theorem no_shared_writes_option (X : Extern) (sec : config_section) (name : CStr)
    (e : config_disk_entry) (value : CStr) (ok : Bool) (w : World)
    (hname : sec.name = some name) (hdisk : strcasecmp_zero name SECTION_GLOBAL = false)
    (hdata : sec.data = some e) :
    on_option_found X (some sec) "no shared writes".data value ok w =
      some (some { sec with data := some { e with flags :=
              if value = "true".data ∨ value = "yes".data then
                e.flags ||| X.UFS_DISK_NO_SHARED_WRITES
              else e.flags } }, w) := by
  have hne : "no shared writes".data ≠ "mountpoint".data := by decide
  unfold on_option_found
  simp only [hname, hdisk, hdata, on_option_found_disk_eq, Bool.false_eq_true, if_false,
    if_neg hne, true_and]

theorem no_shared_writes_option_witness :
    on_option_found example_extern
        (some { name := some "disk1".data, data := some { mountpoint := none, flags := 0 } })
        "no shared writes".data "yes".data true { fs := example_handle, trace := [] }
      = some (some { name := some "disk1".data, data := some { mountpoint := none, flags := 1 } },
              { fs := example_handle, trace := [] }) :=
  no_shared_writes_option example_extern _ "disk1".data { mountpoint := none, flags := 0 }
    "yes".data true _ rfl (by decide) rfl

/-- Claim C7: in a global section (name equal to `global` ignoring case), the
option `disk cache timeout` whose value is the decimal representation of `n`
with `0 < n ≤ INT_MAX` sets the timeout of the handle to exactly `n`, whatever
it was before, and changes nothing else on the handle: mountpoint, disk count
and disks are kept and the only effect is the timeout write. -/
theorem disk_cache_timeout_option (X : Extern) (sec : config_section) (name : CStr)
    (n : Nat) (ok : Bool) (w : World)
    (hname : sec.name = some name) (hglobal : strcasecmp_zero name SECTION_GLOBAL = true)
    (hpos : 0 < n) (hmax : (n : Int) ≤ INT_MAX) :
    on_option_found X (some sec) "disk cache timeout".data (Nat.repr n).data ok w =
      some (some sec,
        { fs := { w.fs with disk_cache_timeout := n }
          trace := w.trace ++ [Effect.set_timeout n] }) := by
  have hlt : n % 2 ^ 32 = n := Nat.mod_eq_of_lt (by unfold INT_MAX at hmax; omega)
  have hgt : (n : Int) > 0 := by omega
  unfold on_option_found
  simp only [hname, hglobal, if_true, strcmp_zero, beq_self_eq_true, atoi_repr n hmax, hgt,
    Int.toNat_ofNat, hlt, set_disk_cache_timeout]

theorem disk_cache_timeout_option_witness :
    on_option_found example_extern (some { name := some "Global".data, data := none })
        "disk cache timeout".data "30".data true { fs := example_handle, trace := [] }
      = some (some { name := some "Global".data, data := none },
          { fs := { example_handle with disk_cache_timeout := 30 }
            trace := [Effect.set_timeout 30] }) :=
  disk_cache_timeout_option example_extern _ "Global".data 30 true _ rfl (by decide)
    (by decide) (by decide)

/-- Claim C8, counterexample: the value `30x` is not a plain decimal integer,
yet in a global section `disk cache timeout = 30x` changes the timeout of the
handle from 7 to 30, because `atoi` reads the leading digits. -/
theorem timeout_leading_digits_applied :
    (on_option_found example_extern (some { name := some "global".data, data := none })
        "disk cache timeout".data "30x".data true
        { fs := { example_handle with disk_cache_timeout := 7 }, trace := [] }).map
      (fun r => r.2.fs.disk_cache_timeout) = some 30 := by
  decide

theorem on_section_start_ok (name : CStr) :
    on_section_start Allocs.ok name =
      some { name := some name
             data := if strcasecmp_zero name SECTION_GLOBAL then none
                     else some { mountpoint := none, flags := 0 } } := by
  unfold on_section_start Allocs.ok
  by_cases h : strcasecmp_zero name SECTION_GLOBAL = true
  · simp [h]
  · simp [h]

theorem on_option_found_global (X : Extern) (sec : config_section) (name key value : CStr)
    (ok : Bool) (w : World) (hname : sec.name = some name)
    (hglobal : strcasecmp_zero name SECTION_GLOBAL = true) :
    on_option_found X (some sec) key value ok w =
      some (some sec,
        if key = "disk cache timeout".data ∧ 0 < atoi value then
          set_disk_cache_timeout w ((atoi value).toNat % 2 ^ 32)
        else w) := by
  unfold on_option_found
  simp only [hname, hglobal, if_true, strcmp_zero, beq_iff_eq, gt_iff_lt]
  by_cases hk : key = "disk cache timeout".data
  · by_cases hv : 0 < atoi value
    · simp [hk, hv]
    · simp [hk, hv]
  · simp [hk]

/-- In a global section, the option `disk cache timeout` whose value `atoi`
converts to a number that is not positive leaves the handle and the trace
unchanged, also after an earlier option of the section set the timeout
to 30. -/
theorem timeout_ignored_of_atoi_nonpos (X : Extern) (sec : config_section) (name : CStr)
    (value : CStr) (ok : Bool) (w : World)
    (hname : sec.name = some name) (hglobal : strcasecmp_zero name SECTION_GLOBAL = true)
    (hval : atoi value ≤ 0) :
    on_option_found X (some sec) "disk cache timeout".data value ok w = some (some sec, w) ∧
    run_events X
        (SectionBlock.events
          { name := name, allocs := Allocs.ok,
            options := [{ key := "disk cache timeout".data, value := "30".data, strdup_ok := ok },
                        { key := "disk cache timeout".data, value := value, strdup_ok := ok }] })
        none w
      = some { fs := { w.fs with disk_cache_timeout := 30 }
               trace := w.trace ++ [Effect.set_timeout 30] } ∧
    (atoi "abc".data ≤ 0 ∧ atoi [] ≤ 0 ∧ atoi "0".data ≤ 0 ∧ atoi "-5".data ≤ 0) := by
  have hno : ¬ (0 < atoi value) := not_lt.mpr hval
  have h30 : atoi "30".data = 30 := by decide
  refine ⟨?_, ?_, by decide⟩
  · rw [on_option_found_global X sec name _ _ _ _ hname hglobal]
    simp [hno]
  · simp only [SectionBlock.events, option_events, List.map, List.cons_append, List.nil_append,
      run_events, on_section_start_ok, hglobal, if_true]
    rw [on_option_found_global X _ name _ _ _ _ rfl hglobal]
    simp only [h30, true_and]
    rw [on_option_found_global X _ name _ _ _ _ rfl hglobal]
    simp [hno, on_section_end, set_disk_cache_timeout]

theorem atoi_examples :
    atoi "abc".data = 0 ∧ atoi [] = 0 ∧ atoi "0".data = 0 ∧ atoi "-5".data = -5 ∧
    atoi "30x".data = 30 ∧ atoi " +30".data = 30 := by
  decide


theorem regs_append (a b : List Effect) : regs (a ++ b) = regs a ++ regs b := by
  induction a with
  | nil => rfl
  | cons e t ih => cases e <;> simp [regs, ih]

theorem reads_append (a b : List Effect) : reads (a ++ b) = reads a ++ reads b := by
  induction a with
  | nil => rfl
  | cons e t ih => cases e <;> simp [reads, ih]

theorem fopens_append (a b : List Effect) : fopens (a ++ b) = fopens a ++ fopens b := by
  induction a with
  | nil => rfl
  | cons e t ih => cases e <;> simp [fopens, ih]

theorem timeout_writes_append (a b : List Effect) :
    timeout_writes (a ++ b) = timeout_writes a ++ timeout_writes b := by
  induction a with
  | nil => rfl
  | cons e t ih => cases e <;> simp [timeout_writes, ih]

theorem last_mountpoint_cons (o : OptionLine) (rest : List OptionLine) :
    last_mountpoint (o :: rest) =
      if o.key = "mountpoint".data then some ((last_mountpoint rest).getD o.value)
      else last_mountpoint rest := by
  unfold last_mountpoint
  by_cases h : o.key = "mountpoint".data
  · simp only [h, List.filter_cons, beq_self_eq_true, if_true, List.getLast?_cons, Option.map_some']
    cases (List.filter (fun o => o.key == "mountpoint".data) rest).getLast? <;> simp
  · simp [List.filter_cons, h]

theorem wants_no_shared_writes_cons (o : OptionLine) (rest : List OptionLine) :
    wants_no_shared_writes (o :: rest) =
      ((o.key == "no shared writes".data && (o.value == "true".data || o.value == "yes".data))
        || wants_no_shared_writes rest) := by
  simp [wants_no_shared_writes]

theorem lor_lor_self (a b : Nat) : (a ||| b) ||| b = a ||| b := by
  rw [Nat.lor_assoc, Nat.or_self]

/-- Running the option lines of a disk section: the entry is updated in place,
the world is untouched. -/
theorem run_options_disk (X : Extern) (name : CStr)
    (hdisk : strcasecmp_zero name SECTION_GLOBAL = false) (opts : List OptionLine) :
    ∀ e : config_disk_entry, ∃ e1 : config_disk_entry,
      (∀ es w, run_events X (option_events opts ++ es)
          (some { name := some name, data := some e }) w
        = run_events X es (some { name := some name, data := some e1 }) w) ∧
      e1.flags = (if wants_no_shared_writes opts then e.flags ||| X.UFS_DISK_NO_SHARED_WRITES
                  else e.flags) ∧
      (opts.all (fun o => o.strdup_ok) = true →
        e1.mountpoint = (match last_mountpoint opts with
                         | some v => some v
                         | none => e.mountpoint)) := by
  induction opts with
  | nil =>
    intro e
    exact ⟨e, fun es w => rfl, by simp [wants_no_shared_writes], fun _ => rfl⟩
  | cons o rest ih =>
    intro e
    obtain ⟨e1, hrun, hflags, hmp⟩ := ih
      { mountpoint :=
          if o.key = "mountpoint".data then (if o.strdup_ok then some o.value else none)
          else e.mountpoint
        flags :=
          if o.key = "no shared writes".data ∧ (o.value = "true".data ∨ o.value = "yes".data) then
            e.flags ||| X.UFS_DISK_NO_SHARED_WRITES
          else e.flags }
    refine ⟨e1, ?_, ?_, ?_⟩
    · intro es w
      simp only [option_events, List.map_cons, List.cons_append, run_events, on_option_found,
        hdisk, Bool.false_eq_true, if_false, on_option_found_disk_eq]
      exact hrun es w
    · rw [hflags, wants_no_shared_writes_cons]
      dsimp only
      by_cases hc : o.key = "no shared writes".data ∧ (o.value = "true".data ∨ o.value = "yes".data)
      · have hb : (o.key == "no shared writes".data
            && (o.value == "true".data || o.value == "yes".data)) = true := by
          simpa using hc
        rw [if_pos hc, hb]
        simp [lor_lor_self]
      · have hb : (o.key == "no shared writes".data
            && (o.value == "true".data || o.value == "yes".data)) = false := by
          simpa using hc
        rw [if_neg hc, hb]
        simp
    · intro hall
      simp only [List.all_cons, Bool.and_eq_true] at hall
      rw [hmp hall.2, last_mountpoint_cons]
      by_cases hk : o.key = "mountpoint".data
      · simp only [hk, if_true, hall.1]
        cases last_mountpoint rest <;> rfl
      · simp only [hk, if_false]

theorem grows_refl (X : Extern) (w : World) : grows X w w [] := by
  simp [grows, regs]

theorem grows_trans (X : Extern) {w w1 w2 : World} {d1 d2 : List Effect}
    (h1 : grows X w w1 d1) (h2 : grows X w1 w2 d2) : grows X w w2 (d1 ++ d2) := by
  obtain ⟨ht1, hm1, hk1, ha1⟩ := h1
  obtain ⟨ht2, hm2, hk2, ha2⟩ := h2
  refine ⟨by rw [ht2, ht1, List.append_assoc], hm2.trans hm1, ?_, ?_⟩
  · intro hr
    rw [regs_append, List.append_eq_nil] at hr
    exact ⟨(hk2 hr.2).1.trans (hk1 hr.1).1, (hk2 hr.2).2.trans (hk1 hr.1).2⟩
  · intro hacc
    rw [(ha2 hacc).1, (ha1 hacc).1, (ha2 hacc).2, (ha1 hacc).2, regs_append]
    simp [Nat.add_assoc]

theorem grows_add_disk (X : Extern) (w : World) (m : Option CStr) (f : Nat) :
    grows X w (ufs_add_disk X w m f) [Effect.add_disk m f] := by
  refine ⟨rfl, ?_, ?_, ?_⟩
  · unfold ufs_add_disk
    dsimp only
    split <;> rfl
  · intro h; simp [regs] at h
  · intro hacc
    simp [ufs_add_disk, hacc, regs]

theorem grows_set_timeout (X : Extern) (w : World) (t : Nat) :
    grows X w (set_disk_cache_timeout w t) [Effect.set_timeout t] := by
  simp [grows, set_disk_cache_timeout, regs]

/-- Whenever `on_option_found` returns, the world has grown by timeout writes
only. -/
theorem on_option_found_grows (X : Extern) (cur : Option config_section) (key value : CStr)
    (ok : Bool) (w : World) (r : Option config_section × World)
    (h : on_option_found X cur key value ok w = some r) :
    ∃ d, grows X w r.2 d ∧ regs d = [] ∧ reads d = [] ∧ fopens d = [] := by
  unfold on_option_found at h
  split at h
  · cases h; exact ⟨[], grows_refl X w, rfl, rfl, rfl⟩
  · split at h
    · cases h
    · split at h
      · split at h
        · dsimp only at h
          split at h
          · cases h; exact ⟨_, grows_set_timeout X w _, rfl, rfl, rfl⟩
          · cases h; exact ⟨[], grows_refl X w, rfl, rfl, rfl⟩
        · cases h; exact ⟨[], grows_refl X w, rfl, rfl, rfl⟩
      · split at h
        · cases h
        · cases h; exact ⟨[], grows_refl X w, rfl, rfl, rfl⟩

/-- Whenever `on_section_end` returns, the world has grown by at most one
registration call. -/
theorem on_section_end_grows (X : Extern) (cur : Option config_section) (w w1 : World)
    (h : on_section_end X cur w = some w1) :
    ∃ d, grows X w w1 d ∧ reads d = [] ∧ fopens d = [] ∧ timeout_writes d = [] := by
  unfold on_section_end at h
  split at h
  · cases h; exact ⟨[], grows_refl X w, rfl, rfl, rfl⟩
  · split at h
    · cases h; exact ⟨[], grows_refl X w, rfl, rfl, rfl⟩
    · split at h
      · cases h
      · split at h
        · cases h; exact ⟨_, grows_add_disk X w _ _, rfl, rfl, rfl⟩
        · cases h; exact ⟨[], grows_refl X w, rfl, rfl, rfl⟩

/-- Whenever the event loop returns, the world has grown by registration
calls and timeout writes only. -/
theorem run_events_grows (X : Extern) (es : List Event) :
    ∀ (cur : Option config_section) (w w1 : World), run_events X es cur w = some w1 →
      ∃ d, grows X w w1 d ∧ reads d = [] ∧ fopens d = [] := by
  induction es with
  | nil =>
    intro cur w w1 h
    simp only [run_events, Option.some.injEq] at h
    subst h
    exact ⟨[], grows_refl X w, rfl, rfl⟩
  | cons e es ih =>
    intro cur w w1 h
    cases e with
    | section_start name a =>
      simp only [run_events] at h
      exact ih _ _ _ h
    | option_found key value ok =>
      simp only [run_events] at h
      split at h
      · cases h
      · rename_i r hr
        obtain ⟨d1, hg1, _, hr1, hf1⟩ := on_option_found_grows X cur key value ok w r hr
        obtain ⟨d2, hg2, hr2, hf2⟩ := ih _ _ _ h
        exact ⟨d1 ++ d2, grows_trans X hg1 hg2, by simp [reads_append, hr1, hr2],
          by simp [fopens_append, hf1, hf2]⟩
    | section_end =>
      simp only [run_events] at h
      split at h
      · cases h
      · rename_i w2 hw2
        obtain ⟨d1, hg1, hr1, hf1, _⟩ := on_section_end_grows X cur w w2 hw2
        obtain ⟨d2, hg2, hr2, hf2⟩ := ih _ _ _ h
        exact ⟨d1 ++ d2, grows_trans X hg1 hg2, by simp [reads_append, hr1, hr2],
          by simp [fopens_append, hf1, hf2]⟩

theorem on_section_start_inv (a : Allocs) (name : CStr)
    (hok : (a.calloc_section && a.strdup_name && a.calloc_entry) = true) :
    ∀ sec, on_section_start a name = some sec → section_inv sec := by
  intro sec h
  simp only [Bool.and_eq_true] at hok
  obtain ⟨⟨h1, h2⟩, h3⟩ := hok
  unfold on_section_start at h
  simp only [h1, h2, h3, if_true, Option.some.injEq] at h
  subst h
  refine ⟨name, ?_, ?_⟩
  · split <;> rfl
  · by_cases hg : strcasecmp_zero name SECTION_GLOBAL = true
    · simp [hg]
    · simp [hg]

/-- On a section record satisfying the invariant `on_option_found` returns,
and the invariant is kept. -/
theorem on_option_found_inv (X : Extern) (sec : config_section) (hinv : section_inv sec)
    (key value : CStr) (ok : Bool) (w : World) :
    ∃ sec1 w1, on_option_found X (some sec) key value ok w = some (some sec1, w1) ∧
      section_inv sec1 := by
  obtain ⟨name, hname, hdata⟩ := hinv
  by_cases hg : strcasecmp_zero name SECTION_GLOBAL = true
  · exact ⟨sec, _, on_option_found_global X sec name key value ok w hname hg, name, hname, hdata⟩
  · have hg2 : strcasecmp_zero name SECTION_GLOBAL = false := by simpa using hg
    rw [hg2] at hdata
    obtain ⟨e, he⟩ := Option.isSome_iff_exists.mp hdata
    have h : ∃ e1, on_option_found X (some sec) key value ok w
        = some (some { sec with data := some e1 }, w) := by
      unfold on_option_found
      simp only [hname, hg2, he, on_option_found_disk_eq, Bool.false_eq_true, if_false]
      exact ⟨_, rfl⟩
    obtain ⟨e1, h1⟩ := h
    exact ⟨_, w, h1, name, hname, by simp [hg2]⟩

theorem on_section_end_inv (X : Extern) (sec : config_section) (hinv : section_inv sec)
    (w : World) : ∃ w1, on_section_end X (some sec) w = some w1 := by
  obtain ⟨name, hname, _⟩ := hinv
  unfold on_section_end
  simp only [hname]
  split
  · exact ⟨_, rfl⟩
  · split <;> exact ⟨_, rfl⟩

/-- With successful allocations the event loop returns, whatever the events. -/
theorem run_events_returns (X : Extern) (es : List Event) :
    (∀ e ∈ es, Event.allocs_ok e = true) →
    ∀ (cur : Option config_section) (w : World), (∀ sec, cur = some sec → section_inv sec) →
      ∃ w1, run_events X es cur w = some w1 := by
  induction es with
  | nil => intro _ cur w _; exact ⟨w, rfl⟩
  | cons e es ih =>
    intro hok cur w hcur
    have hok2 : ∀ e ∈ es, Event.allocs_ok e = true := fun e he => hok e (List.mem_cons_of_mem _ he)
    cases e with
    | section_start name a =>
      simp only [run_events]
      exact ih hok2 _ w
        (on_section_start_inv a name (hok _ (List.mem_cons_self _ _)))
    | option_found key value ok =>
      simp only [run_events]
      cases cur with
      | none =>
        simp only [on_option_found]
        exact ih hok2 none w (fun _ h => by cases h)
      | some sec =>
        obtain ⟨sec1, w1, h1, hinv1⟩ := on_option_found_inv X sec (hcur sec rfl) key value ok w
        rw [h1]
        exact ih hok2 (some sec1) w1 (fun s hs => by cases hs; exact hinv1)
    | section_end =>
      simp only [run_events]
      cases cur with
      | none =>
        simp only [on_section_end]
        exact ih hok2 none w (fun _ h => by cases h)
      | some sec =>
        obtain ⟨w1, h1⟩ := on_section_end_inv X sec (hcur sec rfl) w
        rw [h1]
        exact ih hok2 none w1 (fun _ h => by cases h)

theorem allocs_eq_ok (a : Allocs)
    (h : (a.calloc_section && a.strdup_name && a.calloc_entry) = true) : a = Allocs.ok := by
  simp only [Bool.and_eq_true] at h
  obtain ⟨⟨h1, h2⟩, h3⟩ := h
  cases a
  simp_all [Allocs.ok]

theorem run_events_append_options_global (X : Extern) (name : CStr)
    (hglobal : strcasecmp_zero name SECTION_GLOBAL = true) (sec : config_section)
    (hname : sec.name = some name) (opts : List OptionLine) :
    ∀ (w : World), ∃ w1 d, (∀ es, run_events X (option_events opts ++ es) (some sec) w
        = run_events X es (some sec) w1) ∧ grows X w w1 d ∧ regs d = [] ∧ reads d = [] ∧
        fopens d = [] := by
  induction opts with
  | nil => intro w; exact ⟨w, [], fun es => rfl, grows_refl X w, rfl, rfl, rfl⟩
  | cons o rest ih =>
    intro w
    have h1 := on_option_found_global X sec name o.key o.value o.strdup_ok w hname hglobal
    obtain ⟨d1, hg1, hr1, hd1, hf1⟩ := on_option_found_grows X _ _ _ _ _ _ h1
    obtain ⟨w2, d2, hrun, hg2, hr2, hd2, hf2⟩ := ih
      (if o.key = "disk cache timeout".data ∧ 0 < atoi o.value then
          set_disk_cache_timeout w ((atoi o.value).toNat % 2 ^ 32)
        else w)
    refine ⟨w2, d1 ++ d2, ?_, grows_trans X hg1 hg2, by simp [regs_append, hr1, hr2],
      by simp [reads_append, hd1, hd2], by simp [fopens_append, hf1, hf2]⟩
    intro es
    simp only [option_events, List.map_cons, List.cons_append, run_events, h1]
    exact hrun es

/-- A section with the reserved name registers nothing. -/
theorem run_global_section (X : Extern) (s : SectionBlock) (hglobal : s.is_global = true)
    (hok : s.allocs_ok = true) (cur : Option config_section) (w : World) :
    ∃ w1 d, (∀ es, run_events X (s.events ++ es) cur w = run_events X es none w1) ∧
      grows X w w1 d ∧ regs d = [] ∧ reads d = [] ∧ fopens d = [] := by
  obtain ⟨name, a, opts⟩ := s
  simp only [SectionBlock.allocs_ok, Bool.and_eq_true] at hok
  have ha := allocs_eq_ok a (by simp [hok.1])
  subst ha
  simp only [SectionBlock.is_global] at hglobal
  obtain ⟨w1, d, hrun, hg, hr, hd, hf⟩ :=
    run_events_append_options_global X name hglobal { name := some name, data := none } rfl opts w
  refine ⟨w1, d, ?_, hg, hr, hd, hf⟩
  intro es
  have hev : SectionBlock.events { name := name, allocs := Allocs.ok, options := opts } ++ es
      = Event.section_start name Allocs.ok :: (option_events opts ++ (Event.section_end :: es)) := by
    simp [SectionBlock.events]
  rw [hev]
  simp only [run_events, on_section_start_ok, hglobal, if_true, hrun, on_section_end]

/-- A section with another name makes exactly one registration call, at its
end, with the flags and the mountpoint its options selected. -/
theorem run_disk_section (X : Extern) (s : SectionBlock) (hdisk : s.is_global = false)
    (hcalloc : (s.allocs.calloc_section && s.allocs.strdup_name && s.allocs.calloc_entry) = true) :
    ∃ m : Option CStr,
      (∀ cur w es, run_events X (s.events ++ es) cur w =
        run_events X es none
          (ufs_add_disk X w m
            (if wants_no_shared_writes s.options then X.UFS_DISK_NO_SHARED_WRITES else 0))) ∧
      (∀ cur w, run_events X (Event.section_start s.name s.allocs :: option_events s.options) cur w
        = some w) ∧
      (s.options.all (fun o => o.strdup_ok) = true → m = last_mountpoint s.options) := by
  obtain ⟨name, a, opts⟩ := s
  have ha := allocs_eq_ok a hcalloc
  subst ha
  simp only [SectionBlock.is_global] at hdisk
  obtain ⟨e1, hrun, hflags, hmp⟩ := run_options_disk X name hdisk opts { mountpoint := none, flags := 0 }
  refine ⟨e1.mountpoint, ?_, ?_, ?_⟩
  · intro cur w es
    have hev : SectionBlock.events { name := name, allocs := Allocs.ok, options := opts } ++ es
        = Event.section_start name Allocs.ok :: (option_events opts ++ (Event.section_end :: es)) := by
      simp [SectionBlock.events]
    rw [hev]
    simp only [run_events, on_section_start_ok, hdisk, Bool.false_eq_true, if_false, hrun,
      on_section_end, Bool.not_false, if_true, hflags, Nat.zero_or]
  · intro cur w
    have := hrun [] w
    simp only [List.append_nil] at this
    simp only [run_events, on_section_start_ok, hdisk, Bool.false_eq_true, if_false, this]
  · intro hall
    rw [hmp hall]
    cases last_mountpoint opts <;> rfl

theorem last_mountpoint_decomp (pre post : List OptionLine) (o : OptionLine)
    (hkey : o.key = "mountpoint".data) (hpost : ∀ o1 ∈ post, o1.key ≠ "mountpoint".data) :
    last_mountpoint (pre ++ o :: post) = some o.value := by
  have hf : post.filter (fun o => o.key == "mountpoint".data) = [] := by
    rw [List.filter_eq_nil_iff]
    intro a ha
    simpa using hpost a ha
  unfold last_mountpoint
  rw [List.filter_append, List.filter_cons, hf]
  simp [hkey]

/-- Claim C5: a disk section (name other than `global`, successful
allocations at its start) ends with one registration call whose flag word is
`UFS_DISK_NO_SHARED_WRITES` when some option of the section has key
`no shared writes` and value `true` or `yes`, and 0 otherwise; an option
`no shared writes` with any other value leaves the entry as it was; the
section with `mountpoint = /a` and `no shared writes = yes` registers `/a`
with flags `UFS_DISK_NO_SHARED_WRITES`. -/
theorem disk_section_flags (X : Extern) (s : SectionBlock) (cur : Option config_section)
    (w : World) (hdisk : s.is_global = false)
    (hcalloc : (s.allocs.calloc_section && s.allocs.strdup_name && s.allocs.calloc_entry) = true) :
    (∃ m, run_events X s.events cur w =
        some (ufs_add_disk X w m
          (if wants_no_shared_writes s.options then X.UFS_DISK_NO_SHARED_WRITES else 0))) ∧
    (∀ (e : config_disk_entry) (value : CStr) (ok : Bool),
      ¬ (value = "true".data ∨ value = "yes".data) →
      on_option_found X (some { name := some s.name, data := some e })
          "no shared writes".data value ok w
        = some (some { name := some s.name, data := some e }, w)) ∧
    run_events X
        (SectionBlock.events
          { name := s.name, allocs := Allocs.ok,
            options := [{ key := "mountpoint".data, value := "/a".data, strdup_ok := true },
                        { key := "no shared writes".data, value := "yes".data,
                          strdup_ok := true }] })
        cur w
      = some (ufs_add_disk X w (some "/a".data) X.UFS_DISK_NO_SHARED_WRITES) := by
  refine ⟨?_, ?_, ?_⟩
  · obtain ⟨m, hrun, _, _⟩ := run_disk_section X s hdisk hcalloc
    refine ⟨m, ?_⟩
    have h1 := hrun cur w []
    rw [List.append_nil] at h1
    rw [h1]
    rfl
  · intro e value ok hv
    have hd : strcasecmp_zero s.name SECTION_GLOBAL = false := hdisk
    have hne : "no shared writes".data ≠ "mountpoint".data := by decide
    unfold on_option_found
    simp only [hd, on_option_found_disk_eq, Bool.false_eq_true, if_false, if_neg hne, hv,
      and_false]
  · obtain ⟨m, hrun, _, hm⟩ := run_disk_section X
      { name := s.name, allocs := Allocs.ok,
        options := [{ key := "mountpoint".data, value := "/a".data, strdup_ok := true },
                    { key := "no shared writes".data, value := "yes".data,
                      strdup_ok := true }] } hdisk rfl
    have h1 := hrun cur w []
    rw [List.append_nil] at h1
    have h2 : m = some "/a".data := by
      rw [hm rfl]
      show last_mountpoint
        [{ key := "mountpoint".data, value := "/a".data, strdup_ok := true },
         { key := "no shared writes".data, value := "yes".data, strdup_ok := true }]
        = some "/a".data
      decide
    have h3 : wants_no_shared_writes
        [{ key := "mountpoint".data, value := "/a".data, strdup_ok := true },
         { key := "no shared writes".data, value := "yes".data, strdup_ok := true }] = true := by
      decide
    rw [h1, h2]
    simp only [h3, if_true, run_events]

theorem disk_section_flags_witness :
    (∃ m, run_events example_extern
        (SectionBlock.events
          { name := "disk1".data, allocs := Allocs.ok,
            options := [{ key := "no shared writes".data, value := "no".data, strdup_ok := true },
                        { key := "no shared writes".data, value := "true".data,
                          strdup_ok := true }] })
        none { fs := example_handle, trace := [] }
      = some (ufs_add_disk example_extern { fs := example_handle, trace := [] } m 1)) :=
  (disk_section_flags example_extern
    { name := "disk1".data, allocs := Allocs.ok,
      options := [{ key := "no shared writes".data, value := "no".data, strdup_ok := true },
                  { key := "no shared writes".data, value := "true".data, strdup_ok := true }] }
    none { fs := example_handle, trace := [] } (by decide) (by decide)).1

/-- Claim C9: in a disk section with successful allocations whose options
are `pre`, then an option `o` with key `mountpoint`, then options `post` none
of which has key `mountpoint`, the registration call made at the end of the
section carries exactly the value of `o` as mountpoint, whatever the options
in `pre` and `post` are. -/
theorem disk_section_last_mountpoint (X : Extern) (s : SectionBlock)
    (cur : Option config_section) (w : World) (pre post : List OptionLine) (o : OptionLine)
    (hdisk : s.is_global = false) (hok : s.allocs_ok = true)
    (hopts : s.options = pre ++ o :: post) (hkey : o.key = "mountpoint".data)
    (hpost : ∀ o1 ∈ post, o1.key ≠ "mountpoint".data) :
    ∃ flags, run_events X s.events cur w = some (ufs_add_disk X w (some o.value) flags) ∧
      (ufs_add_disk X w (some o.value) flags).trace
        = w.trace ++ [Effect.add_disk (some o.value) flags] := by
  simp only [SectionBlock.allocs_ok, Bool.and_eq_true] at hok
  obtain ⟨m, hrun, _, hm⟩ := run_disk_section X s hdisk (by simp [hok.1])
  have h1 := hrun cur w []
  rw [List.append_nil] at h1
  have h2 : m = some o.value := by
    rw [hm hok.2, hopts, last_mountpoint_decomp pre post o hkey hpost]
  exact ⟨_, by rw [h1, h2]; rfl, rfl⟩

theorem disk_section_last_mountpoint_witness :
    ∃ flags, run_events example_extern
        (SectionBlock.events
          { name := "disk1".data, allocs := Allocs.ok,
            options := [{ key := "mountpoint".data, value := "/old".data, strdup_ok := true },
                        { key := "mountpoint".data, value := " /new ".data, strdup_ok := true },
                        { key := "no shared writes".data, value := "yes".data,
                          strdup_ok := true }] })
        none { fs := example_handle, trace := [] }
      = some (ufs_add_disk example_extern { fs := example_handle, trace := [] }
          (some " /new ".data) flags) ∧
      (ufs_add_disk example_extern { fs := example_handle, trace := [] }
          (some " /new ".data) flags).trace
        = [] ++ [Effect.add_disk (some " /new ".data) flags] :=
  disk_section_last_mountpoint example_extern
    { name := "disk1".data, allocs := Allocs.ok,
      options := [{ key := "mountpoint".data, value := "/old".data, strdup_ok := true },
                  { key := "mountpoint".data, value := " /new ".data, strdup_ok := true },
                  { key := "no shared writes".data, value := "yes".data, strdup_ok := true }] }
    none { fs := example_handle, trace := [] }
    [{ key := "mountpoint".data, value := "/old".data, strdup_ok := true }]
    [{ key := "no shared writes".data, value := "yes".data, strdup_ok := true }]
    { key := "mountpoint".data, value := " /new ".data, strdup_ok := true }
    (by decide) (by decide) rfl rfl (by decide)

theorem run_sections_regs (X : Extern) (secs : List SectionBlock) :
    (∀ s ∈ secs, s.allocs_ok = true) →
    ∀ (cur : Option config_section) (w : World),
      ∃ w1, run_events X (events_of secs) cur w = some w1 ∧
        regs w1.trace = regs w.trace ++
          (secs.filter (fun s => !s.is_global)).map (fun s =>
            { mountpoint := last_mountpoint s.options
              flags := if wants_no_shared_writes s.options then X.UFS_DISK_NO_SHARED_WRITES
                       else 0 }) := by
  induction secs with
  | nil => intro _ cur w; exact ⟨w, rfl, by simp⟩
  | cons s rest ih =>
    intro hok cur w
    have hs : s.allocs_ok = true := hok s (List.mem_cons_self _ _)
    have hrest : ∀ s ∈ rest, s.allocs_ok = true := fun t ht => hok t (List.mem_cons_of_mem _ ht)
    by_cases hg : s.is_global = true
    · obtain ⟨w2, d, hrun, hgrow, hr, _, _⟩ := run_global_section X s hg hs cur w
      obtain ⟨w1, h1, h2⟩ := ih hrest none w2
      refine ⟨w1, ?_, ?_⟩
      · simp only [events_of, hrun, h1]
      · rw [h2, hgrow.1, regs_append, hr]
        simp [List.filter_cons, hg]
    · have hg2 : s.is_global = false := by simpa using hg
      have hs2 := hs
      simp only [SectionBlock.allocs_ok, Bool.and_eq_true] at hs2
      obtain ⟨m, hrun, _, hm⟩ := run_disk_section X s hg2 (by simp [hs2.1])
      obtain ⟨w1, h1, h2⟩ := ih hrest none
        (ufs_add_disk X w m
          (if wants_no_shared_writes s.options then X.UFS_DISK_NO_SHARED_WRITES else 0))
      refine ⟨w1, ?_, ?_⟩
      · simp only [events_of, hrun, h1]
      · rw [h2, hm hs2.2]
        simp [List.filter_cons, hg2, ufs_add_disk, regs_append, regs]

/-- Claim C4: for a well-formed event sequence (the events of a list of
sections) with successful allocations, the event loop returns and the
registration calls it adds to the trace are, in section order, one per section
whose name differs from `global` ignoring case, carrying the value of the last
`mountpoint` option (null when there is none) and the flags of the section;
such a section makes no call before its end event and exactly that call at
its end; a section named `global` in any case (`GLOBAL`, `Global`) makes no
call. -/
theorem structured_session_registrations (X : Extern) (secs : List SectionBlock)
    (cur : Option config_section) (w : World) (hok : ∀ s ∈ secs, s.allocs_ok = true) :
    (∃ w1, run_events X (events_of secs) cur w = some w1 ∧
      regs w1.trace = regs w.trace ++
        (secs.filter (fun s => !s.is_global)).map (fun s =>
          { mountpoint := last_mountpoint s.options
            flags := if wants_no_shared_writes s.options then X.UFS_DISK_NO_SHARED_WRITES
                     else 0 })) ∧
    (∀ s ∈ secs, s.is_global = false →
      run_events X (Event.section_start s.name s.allocs :: option_events s.options) cur w
        = some w ∧
      run_events X s.events cur w =
        some (ufs_add_disk X w (last_mountpoint s.options)
          (if wants_no_shared_writes s.options then X.UFS_DISK_NO_SHARED_WRITES else 0))) ∧
    (∀ s ∈ secs, s.is_global = true →
      ∃ w1, run_events X s.events cur w = some w1 ∧ regs w1.trace = regs w.trace) ∧
    strcasecmp_zero "GLOBAL".data SECTION_GLOBAL = true ∧
    strcasecmp_zero "Global".data SECTION_GLOBAL = true := by
  refine ⟨run_sections_regs X secs hok cur w, ?_, ?_, by decide, by decide⟩
  · intro s hs hg
    have hs2 := hok s hs
    simp only [SectionBlock.allocs_ok, Bool.and_eq_true] at hs2
    obtain ⟨m, hrun, hpre, hm⟩ := run_disk_section X s hg (by simp [hs2.1])
    refine ⟨hpre cur w, ?_⟩
    have h1 := hrun cur w []
    rw [List.append_nil] at h1
    rw [h1, hm hs2.2]
    rfl
  · intro s hs hg
    obtain ⟨w2, d, hrun, hgrow, hr, _, _⟩ := run_global_section X s hg (hok s hs) cur w
    have h1 := hrun []
    rw [List.append_nil] at h1
    exact ⟨w2, by rw [h1]; rfl, by rw [hgrow.1, regs_append, hr, List.append_nil]⟩

theorem structured_session_registrations_witness :
    ∃ w1, run_events example_extern
        (events_of
          [{ name := "Global".data, allocs := Allocs.ok,
             options := [{ key := "disk cache timeout".data, value := "30".data,
                           strdup_ok := true }] },
           { name := "disk1".data, allocs := Allocs.ok,
             options := [{ key := "mountpoint".data, value := "/a".data, strdup_ok := true }] },
           { name := "disk2".data, allocs := Allocs.ok, options := [] }])
        none { fs := example_handle, trace := [] } = some w1 ∧
      regs w1.trace = regs [] ++
        [{ mountpoint := some "/a".data, flags := 0 }, { mountpoint := none, flags := 0 }] :=
  (structured_session_registrations example_extern
    [{ name := "Global".data, allocs := Allocs.ok,
       options := [{ key := "disk cache timeout".data, value := "30".data,
                     strdup_ok := true }] },
     { name := "disk1".data, allocs := Allocs.ok,
       options := [{ key := "mountpoint".data, value := "/a".data, strdup_ok := true }] },
     { name := "disk2".data, allocs := Allocs.ok, options := [] }]
    none { fs := example_handle, trace := [] } (by decide)).1

theorem splitOn_ne_nil (t : List Char) : t.splitOn '\n' ≠ [] := by
  unfold List.splitOn
  exact List.splitOnP_ne_nil _ _

theorem split_lines_nil : split_lines [] = [] := by
  decide

theorem splitOn_cons (c : Char) (cs : List Char) :
    (c :: cs).splitOn '\n' =
      if c = '\n' then [] :: cs.splitOn '\n'
      else List.modifyHead (List.cons c) (cs.splitOn '\n') := by
  unfold List.splitOn
  rw [List.splitOnP_cons]
  by_cases h : c = '\n'
  · simp [h]
  · simp [h]

theorem split_lines_newline (cs : List Char) :
    split_lines ('\n' :: cs) = [] :: split_lines cs := by
  have hne := splitOn_ne_nil cs
  unfold split_lines
  rw [splitOn_cons]
  simp only [if_true]
  obtain ⟨x, xs, hx⟩ := List.exists_cons_of_ne_nil hne
  rw [hx]
  simp only [List.getLast?_cons_cons, List.dropLast_cons₂]
  split <;> rfl

theorem split_lines_single (c : Char) (h : c ≠ '\n') : split_lines [c] = [[c]] := by
  unfold split_lines
  rw [splitOn_cons]
  simp [h, List.splitOn, List.splitOnP_nil]


theorem splitOn_ne_single_nil (c : Char) (cs : List Char) : (c :: cs).splitOn '\n' ≠ [[]] := by
  rw [splitOn_cons]
  obtain ⟨x, xs, hx⟩ := List.exists_cons_of_ne_nil (splitOn_ne_nil cs)
  rw [hx]
  split <;> simp [List.modifyHead]

theorem split_lines_cons_other (c : Char) (h : c ≠ '\n') (c2 : Char) (cs : List Char) :
    split_lines (c :: c2 :: cs) = List.modifyHead (List.cons c) (split_lines (c2 :: cs)) := by
  have h1 := splitOn_ne_single_nil c2 cs
  unfold split_lines
  rw [splitOn_cons c, if_neg h]
  obtain ⟨x, xs, hx⟩ := List.exists_cons_of_ne_nil (splitOn_ne_nil (c2 :: cs))
  rw [hx] at h1 ⊢
  cases xs with
  | nil =>
    have hxne : x ≠ [] := by intro hx0; apply h1; rw [hx0]
    simp [List.modifyHead, hxne]
  | cons y ys =>
    simp only [List.modifyHead, List.getLast?_cons_cons, List.dropLast_cons₂]
    split <;> rfl

/-- A successful `getline` call reads at least one byte. -/
theorem getline_split_fst_ne_nil (c : Char) (cs : List Char) :
    (getline_split (c :: cs)).1 ≠ [] := by
  unfold getline_split
  split <;> simp

theorem getline_split_length (t : List Char) :
    (getline_split t).1.length + (getline_split t).2.length = t.length := by
  induction t with
  | nil => rfl
  | cons c cs ih =>
    unfold getline_split
    split
    · simp; omega
    · simp; omega

theorem split_lines_getline (c : Char) (cs : List Char) :
    split_lines (c :: cs) =
      (if (getline_split (c :: cs)).1.getLast? = some '\n' then (getline_split (c :: cs)).1.dropLast
       else (getline_split (c :: cs)).1) :: split_lines (getline_split (c :: cs)).2 := by
  induction cs generalizing c with
  | nil =>
    by_cases h : c = '\n'
    · subst h; decide
    · rw [split_lines_single c h]
      simp [getline_split, h, split_lines_nil]
  | cons c2 cs ih =>
    by_cases h : c = '\n'
    · subst h
      rw [split_lines_newline]
      simp [getline_split]
    · rw [split_lines_cons_other c h, ih c2]
      have hne := getline_split_fst_ne_nil c2 cs
      have hsplit : getline_split (c :: c2 :: cs)
          = (c :: (getline_split (c2 :: cs)).1, (getline_split (c2 :: cs)).2) := by
        conv_lhs => unfold getline_split
        simp [h]
      rw [hsplit]
      obtain ⟨x, xs, hx⟩ := List.exists_cons_of_ne_nil hne
      simp only [hx, List.modifyHead, List.getLast?_cons_cons, List.dropLast_cons₂]
      split <;> rfl

theorem getline_split_append (t : List Char) :
    (getline_split t).1 ++ (getline_split t).2 = t := by
  induction t with
  | nil => rfl
  | cons c cs ih =>
    unfold getline_split
    split
    · simp
    · simp [ih]

theorem add_disks_loop_cons (X : Extern) (fuel : Nat) (c : Char) (cs : List Char) (w : World) :
    add_disks_loop X (fuel + 1) (c :: cs) w =
      add_disks_loop X fuel (getline_split (c :: cs)).2
        (ufs_add_disk X w
          (some (cstr (if (getline_split (c :: cs)).1.getLast? = some '\n' then
              (getline_split (c :: cs)).1.dropLast
            else (getline_split (c :: cs)).1))) 0) := by
  rfl

/-- With enough fuel the loop registers the lines of the text, in order. -/
theorem add_disks_loop_grows (X : Extern) (fuel : Nat) :
    ∀ (t : List Char) (w : World), t.length ≤ fuel →
      grows X w (add_disks_loop X fuel t w)
        ((split_lines t).map (fun l => Effect.add_disk (some (cstr l)) 0)) := by
  induction fuel with
  | zero =>
    intro t w h
    have ht : t = [] := List.length_eq_zero.mp (Nat.le_zero.mp h)
    subst ht
    exact grows_refl X w
  | succ fuel ih =>
    intro t w h
    cases t with
    | nil => exact grows_refl X w
    | cons c cs =>
      rw [add_disks_loop_cons, split_lines_getline]
      have hlen := getline_split_length (c :: cs)
      have hne := getline_split_fst_ne_nil c cs
      have hpos : 0 < (getline_split (c :: cs)).1.length := List.length_pos.mpr hne
      have hrest : (getline_split (c :: cs)).2.length ≤ fuel := by
        simp only [List.length_cons] at h hlen
        omega
      exact grows_trans X (grows_add_disk X w _ 0) (ih _ _ hrest)

theorem mem_split_lines_aux (n : Nat) :
    ∀ t : List Char, t.length ≤ n → ∀ l ∈ split_lines t, ∀ c ∈ l, c ∈ t := by
  induction n with
  | zero =>
    intro t h l hl
    have ht : t = [] := List.length_eq_zero.mp (Nat.le_zero.mp h)
    subst ht
    simp [split_lines_nil] at hl
  | succ n ih =>
    intro t h
    cases t with
    | nil => intro l hl; simp [split_lines_nil] at hl
    | cons c cs =>
      intro l hl x hx
      rw [split_lines_getline] at hl
      have happ := getline_split_append (c :: cs)
      have hlen := getline_split_length (c :: cs)
      have hne := getline_split_fst_ne_nil c cs
      have hpos : 0 < (getline_split (c :: cs)).1.length := List.length_pos.mpr hne
      rcases List.mem_cons.mp hl with h1 | h1
      · rw [← happ]
        apply List.mem_append_left
        subst h1
        split at hx
        · exact List.mem_of_mem_dropLast hx
        · exact hx
      · rw [← happ]
        apply List.mem_append_right
        refine ih _ ?_ l h1 x hx
        simp only [List.length_cons] at h hlen
        omega

theorem mem_split_lines (t : List Char) : ∀ l ∈ split_lines t, ∀ c ∈ l, c ∈ t :=
  mem_split_lines_aux t.length t (Nat.le_refl _)

theorem cstr_eq_self (l : List Char) (h : ∀ c ∈ l, c ≠ Char.ofNat 0) : cstr l = l := by
  unfold cstr
  rw [List.takeWhile_eq_self_iff]
  intro c hc
  simpa using h c hc

/-- Claim C3: when the file cannot be opened `add_disks_from_file` only
records the attempt and registers nothing; when the file holds a text without
NUL bytes, the effects after the open are exactly one registration call per
line, in order, with flags 0 and the line without its terminating newline as
mountpoint, where the lines are the pieces of the text between newlines with a
trailing empty piece dropped; no other character is stripped and an empty
line is registered as the empty string. -/
theorem add_disks_from_file_lines (X : Extern) (files : CStr → ConfigFile) (filename : CStr)
    (w : World) :
    ((files filename).text = none →
      add_disks_from_file X files filename w
        = { w with trace := w.trace ++ [Effect.fopen filename] }) ∧
    (∀ text, (files filename).text = some text → (∀ c ∈ text, c ≠ Char.ofNat 0) →
      (add_disks_from_file X files filename w).trace
        = w.trace ++ Effect.fopen filename ::
            (split_lines text).map (fun l => Effect.add_disk (some l) 0)) ∧
    split_lines "/x\r\n\n /y ".data = ["/x\r".data, [], " /y ".data] := by
  refine ⟨?_, ?_, by decide⟩
  · intro h
    simp [add_disks_from_file, h]
  · intro text h hnul
    have hg := add_disks_loop_grows X text.length text
      { w with trace := w.trace ++ [Effect.fopen filename] } (Nat.le_refl _)
    have hmap : (split_lines text).map (fun l => Effect.add_disk (some (cstr l)) 0)
        = (split_lines text).map (fun l => Effect.add_disk (some l) 0) := by
      apply List.map_congr_left
      intro l hl
      rw [cstr_eq_self l (fun c hc => hnul c (mem_split_lines text l hl c hc))]
    simp only [add_disks_from_file, h]
    rw [hg.1, hmap]
    simp

theorem add_disks_from_file_lines_witness :
    (add_disks_from_file example_extern example_files "unityfs.conf".data
        { fs := example_handle, trace := [] }).trace
      = [] ++ Effect.fopen "unityfs.conf".data ::
          (split_lines "/x\n/y\n".data).map (fun l => Effect.add_disk (some l) 0) :=
  (add_disks_from_file_lines example_extern example_files "unityfs.conf".data
    { fs := example_handle, trace := [] }).2.1 "/x\n/y\n".data rfl (by decide)

theorem reads_map_add_disk {α : Type} (l : List α) (g : α → Option CStr) :
    reads (l.map (fun x => Effect.add_disk (g x) 0)) = [] := by
  induction l with
  | nil => rfl
  | cons a t ih => simpa [reads] using ih

theorem fopens_map_add_disk {α : Type} (l : List α) (g : α → Option CStr) :
    fopens (l.map (fun x => Effect.add_disk (g x) 0)) = [] := by
  induction l with
  | nil => rfl
  | cons a t ih => simpa [fopens] using ih

theorem regs_map_add_disk {α : Type} (l : List α) (g : α → Option CStr) :
    regs (l.map (fun x => Effect.add_disk (g x) 0))
      = l.map (fun x => { mountpoint := g x, flags := 0 }) := by
  induction l with
  | nil => rfl
  | cons a t ih => simpa [regs] using ih

theorem grows_log (X : Extern) (w : World) (e : Effect) (h : regs [e] = []) :
    grows X w { w with trace := w.trace ++ [e] } [e] := by
  simp [grows, h]

/-- Whenever `config_read_file` returns, the world has grown by the read of
the path followed by registration calls and timeout writes. -/
theorem config_read_file_grows (X : Extern) (files : CStr → ConfigFile) (p : CStr)
    (w w1 : World) (h : config_read_file X files p w = some w1) :
    ∃ d, grows X w w1 (Effect.config_read p :: d) ∧ reads d = [] ∧ fopens d = [] := by
  unfold config_read_file at h
  obtain ⟨d, hg, hr, hf⟩ := run_events_grows X _ _ _ _ h
  exact ⟨d, grows_trans X (grows_log X w (Effect.config_read p) rfl) hg, hr, hf⟩

/-- The legacy loader opens the path once and then only registers disks. -/
theorem add_disks_from_file_grows (X : Extern) (files : CStr → ConfigFile) (p : CStr)
    (w : World) :
    ∃ d, grows X w (add_disks_from_file X files p w) (Effect.fopen p :: d) ∧ reads d = [] ∧
      fopens d = [] ∧
      d = (match (files p).text with
           | none => []
           | some text => (split_lines text).map (fun l => Effect.add_disk (some (cstr l)) 0)) := by
  unfold add_disks_from_file
  cases htext : (files p).text with
  | none =>
    refine ⟨[], ?_, rfl, rfl, rfl⟩
    exact grows_log X w (Effect.fopen p) rfl
  | some text =>
    refine ⟨_, ?_, reads_map_add_disk _ _, fopens_map_add_disk _ _, rfl⟩
    exact grows_trans X (grows_log X w (Effect.fopen p) rfl)
      (add_disks_loop_grows X text.length text _ (Nat.le_refl _))

theorem ufs_init_loop_cons (X : Extern) (files : CStr → ConfigFile) (p : CStr)
    (rest : List CStr) (w : World) :
    ufs_init_loop X files (p :: rest) w =
      (ufs_init_loop X files [p] w).bind (fun w2 =>
        if w2.fs.disks_count > 0 then some w2 else ufs_init_loop X files rest w2) := by
  simp only [ufs_init_loop]
  cases config_read_file X files p w with
  | none => rfl
  | some w1 =>
    simp only [Option.bind]
    split <;> simp_all

theorem drop_trace (a d : List Effect) : (a ++ d).drop a.length = d := by
  simp

/-- Sections that all carry the reserved name leave the disk collection as it
was. -/
theorem run_global_sections (X : Extern) (secs : List SectionBlock)
    (hglobal : ∀ s ∈ secs, s.is_global = true) (hok : ∀ s ∈ secs, s.allocs_ok = true)
    (cur : Option config_section) (w : World) :
    ∃ w1 d, run_events X (events_of secs) cur w = some w1 ∧ grows X w w1 d ∧ regs d = [] ∧
      reads d = [] ∧ fopens d = [] := by
  obtain ⟨w1, h1, h2⟩ := run_sections_regs X secs hok cur w
  obtain ⟨d, hg, hr, hf⟩ := run_events_grows X _ _ _ _ h1
  refine ⟨w1, d, h1, hg, ?_, hr, hf⟩
  have hfil : secs.filter (fun s => !s.is_global) = [] := by
    rw [List.filter_eq_nil_iff]
    intro s hs
    simp [hglobal s hs]
  rw [hfil, hg.1, regs_append] at h2
  simpa using h2

/-- Claim C2: in the iteration of `ufs_init` on a path `p` where
`config_read_file` returned world `w1`: when the disk count of `w1` is zero
the legacy loader runs once, on `p`, from `w1`; when it is not zero the
legacy loader is not run and the iteration ends in `w1`.  The loop over
`p :: rest` is this iteration followed, when no disk was found, by the loop
over `rest`.  For a file whose sections are all global and whose text is the
two lines `/x` and `/y`, a registry that accepts every entry ends with the two
disks `/x` and `/y`, flags 0. -/
theorem legacy_fallback_iff_no_disk (X : Extern) (files : CStr → ConfigFile) (p : CStr)
    (rest : List CStr) (w w1 : World) (h : config_read_file X files p w = some w1) :
    (∃ w2, ufs_init_loop X files [p] w = some w2 ∧
      (w1.fs.disks_count = 0 →
        w2 = add_disks_from_file X files p w1 ∧ fopens (w2.trace.drop w.trace.length) = [p]) ∧
      (w1.fs.disks_count ≠ 0 →
        w2 = w1 ∧ fopens (w2.trace.drop w.trace.length) = [])) ∧
    ufs_init_loop X files (p :: rest) w =
      (ufs_init_loop X files [p] w).bind (fun w2 =>
        if w2.fs.disks_count > 0 then some w2 else ufs_init_loop X files rest w2) ∧
    (∀ secs : List SectionBlock,
      (∀ s ∈ secs, s.is_global = true) → (∀ s ∈ secs, s.allocs_ok = true) →
      (files p).events = events_of secs →
      ((files p).text = some "/x\n/y".data ∨ (files p).text = some "/x\n/y\n".data) →
      (∀ fs m f, X.accepts fs m f = true) → w.fs.disks_count = 0 → w.fs.disks = [] →
      ∃ w2, ufs_init_loop X files [p] w = some w2 ∧
        w2.fs.disks = [{ mountpoint := some "/x".data, flags := 0 },
                       { mountpoint := some "/y".data, flags := 0 }] ∧
        w2.fs.disks_count = 2) := by
  obtain ⟨d1, hg1, hr1, hf1⟩ := config_read_file_grows X files p w w1 h
  obtain ⟨d2, hg2, hr2, hf2, hd2⟩ := add_disks_from_file_grows X files p w1
  refine ⟨?_, ufs_init_loop_cons X files p rest w, ?_⟩
  · by_cases hc : w1.fs.disks_count = 0
    · refine ⟨add_disks_from_file X files p w1, ?_, ?_, fun hne => absurd hc hne⟩
      · simp only [ufs_init_loop, h, hc, if_true]
        split <;> rfl
      · intro _
        refine ⟨rfl, ?_⟩
        rw [hg2.1, hg1.1, List.append_assoc, drop_trace]
        simp [fopens_append, fopens, hf1, hf2]
    · refine ⟨w1, ?_, fun h0 => absurd h0 hc, ?_⟩
      · have hpos : w1.fs.disks_count > 0 := Nat.pos_of_ne_zero hc
        simp only [ufs_init_loop, h, hc, if_false, hpos, if_true]
      · intro _
        refine ⟨rfl, ?_⟩
        rw [hg1.1, drop_trace]
        simp [fopens, hf1]
  · intro secs hglobal hok hev htext hacc hcount hdisks
    have hrun : run_events X (events_of secs) none
        { w with trace := w.trace ++ [Effect.config_read p] } = some w1 := by
      rw [← hev]; exact h
    obtain ⟨w1b, d, hrun2, hg, hr, _, _⟩ := run_global_sections X secs hglobal hok none
      { w with trace := w.trace ++ [Effect.config_read p] }
    rw [hrun] at hrun2
    cases hrun2
    have hc1 : w1.fs.disks_count = 0 := by rw [(hg.2.2.1 hr).2]; exact hcount
    have hd1 : w1.fs.disks = [] := by rw [(hg.2.2.1 hr).1]; exact hdisks
    have hlines : regs d2 = [{ mountpoint := some "/x".data, flags := 0 },
                             { mountpoint := some "/y".data, flags := 0 }] := by
      rw [hd2]
      rcases htext with ht | ht <;> rw [ht] <;> decide
    refine ⟨add_disks_from_file X files p w1, ?_, ?_, ?_⟩
    · have h2 : (add_disks_from_file X files p w1).fs.disks_count = 2 := by
        rw [(hg2.2.2.2 hacc).2, hc1]
        simp [regs, hlines]
      simp only [ufs_init_loop, h, hc1, if_true, h2]
      rfl
    · rw [(hg2.2.2.2 hacc).1, hd1]
      simp [regs, hlines]
    · rw [(hg2.2.2.2 hacc).2, hc1]
      simp [regs, hlines]

theorem legacy_fallback_iff_no_disk_witness :
    ∃ w2, ufs_init_loop example_extern example_files ["unityfs.conf".data]
        { fs := example_handle, trace := [] } = some w2 ∧
      w2.fs.disks = [{ mountpoint := some "/x".data, flags := 0 },
                     { mountpoint := some "/y".data, flags := 0 }] ∧
      w2.fs.disks_count = 2 :=
  (legacy_fallback_iff_no_disk example_extern example_files "unityfs.conf".data []
    { fs := example_handle, trace := [] }
    { fs := example_handle, trace := [Effect.config_read "unityfs.conf".data] } rfl).2.2
    [] (fun _ h => by cases h) (fun _ h => by cases h) rfl (Or.inr rfl) (fun _ _ _ => rfl) rfl rfl

theorem config_read_file_returns (X : Extern) (files : CStr → ConfigFile) (p : CStr) (w : World)
    (hall : ∀ e ∈ (files p).events, Event.allocs_ok e = true) :
    ∃ w1, config_read_file X files p w = some w1 :=
  run_events_returns X _ hall none _ (fun _ h => by cases h)

/-- One iteration of the loop of `ufs_init` from a world without disks, when
the registry accepts every entry. -/
theorem ufs_init_step (X : Extern) (hacc : ∀ fs m f, X.accepts fs m f = true)
    (files : CStr → ConfigFile) (p : CStr) (w : World)
    (hall : ∀ e ∈ (files p).events, Event.allocs_ok e = true)
    (hcount : w.fs.disks_count = 0) (hdisks : w.fs.disks = []) :
    ∃ w2 t, ufs_init_loop X files [p] w = some w2 ∧
      w2.trace = w.trace ++ Effect.config_read p :: t ∧ reads t = [] ∧
      (fopens t = [] ∨ fopens t = [p]) ∧ (regs t = [] → fopens t = [p]) ∧
      w2.fs.disks = regs t ∧ w2.fs.disks_count = (regs t).length ∧
      w2.fs.mountpoint = w.fs.mountpoint := by
  obtain ⟨w1, h⟩ := config_read_file_returns X files p w hall
  obtain ⟨d1, hg1, hr1, hf1⟩ := config_read_file_grows X files p w w1 h
  obtain ⟨d2, hg2, hr2, hf2, _⟩ := add_disks_from_file_grows X files p w1
  have hd1 : w1.fs.disks = regs d1 := by
    rw [(hg1.2.2.2 hacc).1, hdisks]; simp [regs]
  have hc1 : w1.fs.disks_count = (regs d1).length := by
    rw [(hg1.2.2.2 hacc).2, hcount]; simp [regs]
  by_cases hc : w1.fs.disks_count = 0
  · have hregs1 : regs d1 = [] := List.length_eq_zero.mp (by rw [← hc1]; exact hc)
    refine ⟨add_disks_from_file X files p w1, d1 ++ Effect.fopen p :: d2, ?_, ?_, ?_, ?_, ?_,
      ?_, ?_, ?_⟩
    · simp only [ufs_init_loop, h, hc, if_true]
      split <;> rfl
    · rw [hg2.1, hg1.1]; simp
    · simp [reads_append, reads, hr1, hr2]
    · right; simp [fopens_append, fopens, hf1, hf2]
    · intro _; simp [fopens_append, fopens, hf1, hf2]
    · rw [(hg2.2.2.2 hacc).1, hd1]; simp [regs_append, regs]
    · rw [(hg2.2.2.2 hacc).2, hc1]; simp [regs_append, regs]
    · rw [hg2.2.1, hg1.2.1]
  · have hpos : w1.fs.disks_count > 0 := Nat.pos_of_ne_zero hc
    refine ⟨w1, d1, ?_, hg1.1, hr1, Or.inl hf1, ?_, hd1, hc1, hg1.2.1⟩
    · simp only [ufs_init_loop, h, hc, if_false, hpos, if_true]
    · intro hr
      rw [hc1, hr] at hc
      exact absurd rfl hc

/-- The loop of `ufs_init` from a world without disks, when the registry
accepts every entry: either no path yields a disk and all are tried, or the
loop stops at the first path that registers a disk. -/
theorem ufs_init_loop_spec (X : Extern) (hacc : ∀ fs m f, X.accepts fs m f = true)
    (files : CStr → ConfigFile)
    (hall : ∀ p, ∀ e ∈ (files p).events, Event.allocs_ok e = true) (paths : List CStr) :
    ∀ w : World, w.fs.disks_count = 0 → w.fs.disks = [] →
      ∃ w1, ufs_init_loop X files paths w = some w1 ∧ w1.fs.mountpoint = w.fs.mountpoint ∧
        ((w1.fs.disks_count = 0 ∧ w1.fs.disks = [] ∧
            ∃ d, w1.trace = w.trace ++ d ∧ reads d = paths ∧ fopens d = paths ∧ regs d = []) ∨
         (∃ pre p post t1 t2, paths = pre ++ p :: post ∧
            w1.trace = w.trace ++ (t1 ++ Effect.config_read p :: t2) ∧
            reads t1 = pre ∧ fopens t1 = pre ∧ regs t1 = [] ∧
            reads t2 = [] ∧ (fopens t2 = [] ∨ fopens t2 = [p]) ∧
            w1.fs.disks = regs t2 ∧ w1.fs.disks_count = (regs t2).length ∧
            0 < w1.fs.disks_count ∧
            ∃ w0, ufs_init_loop X files pre w = some w0 ∧ w0.fs.disks_count = 0 ∧
              w0.trace = w.trace ++ t1 ∧ ufs_init_loop X files [p] w0 = some w1)) := by
  induction paths with
  | nil =>
    intro w hcount hdisks
    exact ⟨w, rfl, rfl, Or.inl ⟨hcount, hdisks, [], by simp, rfl, rfl, rfl⟩⟩
  | cons p rest ih =>
    intro w hcount hdisks
    obtain ⟨w2, t, hstep, htr, hrd, hfo, hfo2, hds, hcn, hmp⟩ :=
      ufs_init_step X hacc files p w (hall p) hcount hdisks
    rw [ufs_init_loop_cons, hstep]
    simp only [Option.bind]
    by_cases hpos : w2.fs.disks_count > 0
    · rw [if_pos hpos]
      refine ⟨w2, rfl, hmp, Or.inr ⟨[], p, rest, [], t, rfl, ?_, rfl, rfl, rfl, hrd, hfo, hds,
        hcn, hpos, w, rfl, hcount, by simp, hstep⟩⟩
      rw [htr]; rfl
    · rw [if_neg hpos]
      have hzero : w2.fs.disks_count = 0 := by omega
      have hregs : regs t = [] := List.length_eq_zero.mp (by rw [← hcn]; exact hzero)
      have hd2 : w2.fs.disks = [] := by rw [hds, hregs]
      have hft := hfo2 hregs
      obtain ⟨w1, hrun, hmp1, hcase⟩ := ih w2 hzero hd2
      refine ⟨w1, hrun, hmp1.trans hmp, ?_⟩
      rcases hcase with ⟨hc0, hd0, d, hd, hr, hf, hg⟩ | ⟨pre, q, post, t1, t2, hp, htr1, hr1, hf1,
          hg1, hr2, hf2, hds1, hcn1, hpos1, w0, hw0, hw0c, hw0t, hw0s⟩
      · refine Or.inl ⟨hc0, hd0, Effect.config_read p :: (t ++ d), ?_, ?_, ?_, ?_⟩
        · rw [hd, htr]; simp
        · simp [reads, reads_append, hrd, hr]
        · simp [fopens, fopens_append, hft, hf]
        · simp [regs, regs_append, hregs, hg]
      · refine Or.inr ⟨p :: pre, q, post, Effect.config_read p :: (t ++ t1), t2, ?_, ?_, ?_, ?_,
          ?_, hr2, hf2, hds1, hcn1, hpos1, w0, ?_, hw0c, ?_, hw0s⟩
        · rw [hp]; rfl
        · rw [htr1, htr]; simp
        · simp [reads, reads_append, hrd, hr1]
        · simp [fopens, fopens_append, hft, hf1]
        · simp [regs, regs_append, hregs, hg1]
        · rw [ufs_init_loop_cons, hstep]
          simp only [Option.bind, if_neg hpos]
          exact hw0
        · rw [hw0t, htr]; simp

/-- Claim C1: with a registry that accepts every entry, successful
allocations and a fresh handle without disks, the loop of `ufs_init` over any
list of paths returns, and either the disk count is zero, the disk collection
is empty and every path was read, in order, by both loaders; or the list of
paths splits as `pre ++ p :: post` where the paths of `pre` were read in
order without any registration call (the loop over `pre` alone ends with
disk count zero), `p` was read next, nothing was read after it, and the disks
on the handle are exactly the registration calls made while processing `p`,
at least one.  `ufs_init` runs this loop over the fixed path list on the
created handle with the mountpoint stored. -/
theorem ufs_init_first_winner (X : Extern) (files : CStr → ConfigFile) (paths : List CStr)
    (fs0 : unityfs) (mountpoint : Option CStr)
    (hacc : ∀ fs m f, X.accepts fs m f = true)
    (hall : ∀ p, ∀ e ∈ (files p).events, Event.allocs_ok e = true)
    (hcount : fs0.disks_count = 0) (hdisks : fs0.disks = []) :
    (∃ w1, ufs_init_loop X files paths { fs := fs0, trace := [] } = some w1 ∧
      ((w1.fs.disks_count = 0 ∧ w1.fs.disks = [] ∧
          reads w1.trace = paths ∧ fopens w1.trace = paths ∧ regs w1.trace = []) ∨
       (∃ pre p post t1 t2, paths = pre ++ p :: post ∧
          w1.trace = t1 ++ Effect.config_read p :: t2 ∧
          reads t1 = pre ∧ fopens t1 = pre ∧ regs t1 = [] ∧
          reads t2 = [] ∧ (fopens t2 = [] ∨ fopens t2 = [p]) ∧
          w1.fs.disks = regs t2 ∧ w1.fs.disks_count = (regs t2).length ∧
          0 < w1.fs.disks_count ∧
          ∃ w0, ufs_init_loop X files pre { fs := fs0, trace := [] } = some w0 ∧
            w0.fs.disks_count = 0 ∧ w0.trace = t1 ∧
            ufs_init_loop X files [p] w0 = some w1))) ∧
    ufs_init X files (some fs0) mountpoint =
      (ufs_init_loop X files config_file_locations
        { fs := { fs0 with mountpoint := mountpoint }, trace := [] }).map some := by
  constructor
  · obtain ⟨w1, hrun, _, hcase⟩ :=
      ufs_init_loop_spec X hacc files hall paths { fs := fs0, trace := [] } hcount hdisks
    refine ⟨w1, hrun, ?_⟩
    rcases hcase with ⟨hc0, hd0, d, hd, hr, hf, hg⟩ | ⟨pre, q, post, t1, t2, hp, htr1, hr1, hf1,
        hg1, hr2, hf2, hds1, hcn1, hpos1, w0, hw0, hw0c, hw0t, hw0s⟩
    · simp only [List.nil_append] at hd
      exact Or.inl ⟨hc0, hd0, by rw [hd, hr], by rw [hd, hf], by rw [hd, hg]⟩
    · simp only [List.nil_append] at htr1 hw0t
      exact Or.inr ⟨pre, q, post, t1, t2, hp, htr1, hr1, hf1, hg1, hr2, hf2, hds1, hcn1, hpos1,
        w0, hw0, hw0c, hw0t, hw0s⟩
  · unfold ufs_init
    dsimp only
    cases ufs_init_loop X files config_file_locations
      { fs := { fs0 with mountpoint := mountpoint }, trace := [] } <;> rfl

theorem example_files_allocs_ok :
    ∀ p, ∀ e ∈ (example_files p).events, Event.allocs_ok e = true := by
  intro p e he
  unfold example_files at he
  split at he <;> cases he

theorem ufs_init_first_winner_witness :
    ∃ w1, ufs_init_loop example_extern example_files
        ["/etc/unityfs.conf".data, "unityfs.conf".data, "/third.conf".data]
        { fs := example_handle, trace := [] } = some w1 ∧
      ((w1.fs.disks_count = 0 ∧ w1.fs.disks = [] ∧
          reads w1.trace = ["/etc/unityfs.conf".data, "unityfs.conf".data, "/third.conf".data] ∧
          fopens w1.trace = ["/etc/unityfs.conf".data, "unityfs.conf".data, "/third.conf".data] ∧
          regs w1.trace = []) ∨
       (∃ pre p post t1 t2,
          ["/etc/unityfs.conf".data, "unityfs.conf".data, "/third.conf".data]
            = pre ++ p :: post ∧
          w1.trace = t1 ++ Effect.config_read p :: t2 ∧
          reads t1 = pre ∧ fopens t1 = pre ∧ regs t1 = [] ∧
          reads t2 = [] ∧ (fopens t2 = [] ∨ fopens t2 = [p]) ∧
          w1.fs.disks = regs t2 ∧ w1.fs.disks_count = (regs t2).length ∧
          0 < w1.fs.disks_count ∧
          ∃ w0, ufs_init_loop example_extern example_files pre
              { fs := example_handle, trace := [] } = some w0 ∧
            w0.fs.disks_count = 0 ∧ w0.trace = t1 ∧
            ufs_init_loop example_extern example_files [p] w0 = some w1)) :=
  (ufs_init_first_winner example_extern example_files
    ["/etc/unityfs.conf".data, "unityfs.conf".data, "/third.conf".data] example_handle none
    (fun _ _ _ => rfl) example_files_allocs_ok rfl rfl).1

theorem ufs_init_example :
    (ufs_init example_extern example_files (some example_handle) (some "/mnt".data)).map
        (fun r => r.map (fun w => (w.fs.disks, w.fs.disks_count, reads w.trace)))
      = some (some ([{ mountpoint := some "/x".data, flags := 0 },
                     { mountpoint := some "/y".data, flags := 0 }], 2,
                    ["/etc/unityfs.conf".data, "unityfs.conf".data])) := by
  decide

/-- Option lines without the key `mountpoint` leave the mountpoint of the
entry as it was, whatever the other options are. -/
theorem run_options_disk_keep_mountpoint (X : Extern) (name : CStr)
    (hdisk : strcasecmp_zero name SECTION_GLOBAL = false) (opts : List OptionLine) :
    (∀ o ∈ opts, o.key ≠ "mountpoint".data) →
    ∀ e : config_disk_entry, ∃ e1 : config_disk_entry,
      (∀ es w, run_events X (option_events opts ++ es)
          (some { name := some name, data := some e }) w
        = run_events X es (some { name := some name, data := some e1 }) w) ∧
      e1.mountpoint = e.mountpoint := by
  induction opts with
  | nil => intro _ e; exact ⟨e, fun es w => rfl, rfl⟩
  | cons o rest ih =>
    intro hno e
    have hk : o.key ≠ "mountpoint".data := hno o (List.mem_cons_self _ _)
    obtain ⟨e1, hrun, hmp⟩ := ih (fun o1 h1 => hno o1 (List.mem_cons_of_mem _ h1))
      { mountpoint := e.mountpoint
        flags :=
          if o.key = "no shared writes".data ∧ (o.value = "true".data ∨ o.value = "yes".data) then
            e.flags ||| X.UFS_DISK_NO_SHARED_WRITES
          else e.flags }
    refine ⟨e1, ?_, hmp⟩
    intro es w
    simp only [option_events, List.map_cons, List.cons_append, run_events, on_option_found,
      hdisk, Bool.false_eq_true, if_false, on_option_found_disk_eq, if_neg hk]
    exact hrun es w

/-- Claim C11, counterexample: a disk section that closes without any option
is not dropped; the session makes one registration call with a null
mountpoint, and a registry that accepts every entry counts one disk. -/
theorem section_without_mountpoint_registered :
    (run_events example_extern
        (SectionBlock.events { name := "disk2".data, allocs := Allocs.ok, options := [] })
        none { fs := example_handle, trace := [] }).map
      (fun w => (w.trace, w.fs.disks_count)) = some ([Effect.add_disk none 0], 1) := by
  decide

/-- Claim C11, amended: a disk entry without a mountpoint is still handed to
the registry: for every disk section (allocations at its start successful)
that closes without any `mountpoint` option having been seen, the structured
session returns and makes exactly one registration call, with a null
mountpoint and the flags of the section; whether the entry is kept is the
decision of the registry. -/
theorem section_without_mountpoint (X : Extern) (s : SectionBlock)
    (cur : Option config_section) (w : World) (hdisk : s.is_global = false)
    (hcalloc : (s.allocs.calloc_section && s.allocs.strdup_name && s.allocs.calloc_entry) = true)
    (hno : ∀ o ∈ s.options, o.key ≠ "mountpoint".data) :
    ∃ w1, run_events X s.events cur w = some w1 ∧
      w1 = ufs_add_disk X w none
        (if wants_no_shared_writes s.options then X.UFS_DISK_NO_SHARED_WRITES else 0) ∧
      w1.trace = w.trace ++ [Effect.add_disk none
        (if wants_no_shared_writes s.options then X.UFS_DISK_NO_SHARED_WRITES else 0)] := by
  obtain ⟨m, hrun, _, _⟩ := run_disk_section X s hdisk hcalloc
  obtain ⟨name, a, opts⟩ := s
  have ha := allocs_eq_ok a hcalloc
  subst ha
  have hd : strcasecmp_zero name SECTION_GLOBAL = false := hdisk
  obtain ⟨e1, hrun1, hmp⟩ :=
    run_options_disk_keep_mountpoint X name hd opts hno { mountpoint := none, flags := 0 }
  have h1 := hrun cur w []
  rw [List.append_nil] at h1
  have h2 : run_events X
      (SectionBlock.events { name := name, allocs := Allocs.ok, options := opts }) cur w
      = some (ufs_add_disk X w e1.mountpoint e1.flags) := by
    have hev : SectionBlock.events { name := name, allocs := Allocs.ok, options := opts }
        = Event.section_start name Allocs.ok :: (option_events opts ++ [Event.section_end]) := rfl
    rw [hev]
    simp only [run_events, on_section_start_ok, hd, Bool.false_eq_true, if_false, hrun1,
      on_section_end, Bool.not_false, if_true]
  rw [h1] at h2
  simp only [run_events, Option.some.injEq] at h2
  have htr := congrArg World.trace h2
  simp only [ufs_add_disk, List.append_cancel_left_eq, List.cons.injEq, Effect.add_disk.injEq,
    and_true] at htr
  have hm : m = none := by rw [htr.1, hmp]
  subst hm
  exact ⟨_, h1, rfl, rfl⟩

theorem section_without_mountpoint_witness :
    ∃ w1, run_events example_extern
        (SectionBlock.events
          { name := "disk2".data, allocs := Allocs.ok,
            options := [{ key := "no shared writes".data, value := "yes".data,
                          strdup_ok := false }] })
        none { fs := example_handle, trace := [] } = some w1 ∧
      w1 = ufs_add_disk example_extern { fs := example_handle, trace := [] } none 1 ∧
      w1.trace = [] ++ [Effect.add_disk none 1] :=
  section_without_mountpoint example_extern
    { name := "disk2".data, allocs := Allocs.ok,
      options := [{ key := "no shared writes".data, value := "yes".data, strdup_ok := false }] }
    none { fs := example_handle, trace := [] } (by decide) (by decide) (by decide)

/-- Claim C12, the code at the failing inputs: when the allocation of the disk
entry fails, the next `mountpoint` option (or a `no shared writes` option with
a true value) writes through the null entry pointer; when the copy of the
section name fails, every option event, and the end event of a section whose
entry was allocated, compares the null name.  Each of these is a fault, also
in the event loop as a whole.  Only a failure of the section record itself is
tolerated. -/
theorem allocation_failure_faults :
    on_option_found example_extern
        (on_section_start { calloc_section := true, strdup_name := true, calloc_entry := false }
          "disk1".data)
        "mountpoint".data "/a".data true { fs := example_handle, trace := [] } = none ∧
    on_option_found example_extern
        (on_section_start { calloc_section := true, strdup_name := true, calloc_entry := false }
          "disk1".data)
        "no shared writes".data "yes".data true { fs := example_handle, trace := [] } = none ∧
    on_option_found example_extern
        (on_section_start { calloc_section := true, strdup_name := false, calloc_entry := true }
          "global".data)
        "disk cache timeout".data "30".data true { fs := example_handle, trace := [] } = none ∧
    on_section_end example_extern
        (on_section_start { calloc_section := true, strdup_name := false, calloc_entry := true }
          "disk1".data)
        { fs := example_handle, trace := [] } = none ∧
    run_events example_extern
        [Event.section_start "disk1".data
           { calloc_section := true, strdup_name := true, calloc_entry := false },
         Event.option_found "mountpoint".data "/a".data true,
         Event.section_end,
         Event.section_start "disk2".data Allocs.ok,
         Event.option_found "mountpoint".data "/b".data true,
         Event.section_end]
        none { fs := example_handle, trace := [] } = none ∧
    run_events example_extern
        [Event.section_start "disk1".data
           { calloc_section := false, strdup_name := true, calloc_entry := true },
         Event.option_found "mountpoint".data "/a".data true,
         Event.section_end,
         Event.section_start "disk2".data Allocs.ok,
         Event.option_found "mountpoint".data "/b".data true,
         Event.section_end]
        none { fs := example_handle, trace := [] }
      = some { fs := { example_handle with
                        disks := [{ mountpoint := some "/b".data, flags := 0 }]
                        disks_count := 1 }
               trace := [Effect.add_disk (some "/b".data) 0] } := by
  decide

/-- Claim C13: with a null section context `on_option_found` and
`on_section_end` return at once: for every key, value and world, the handle
(timeout, disk count, disks) and the trace are unchanged, so no registration
call is made, and the context stays null. -/
theorem null_context_no_op (X : Extern) (key value : CStr) (ok : Bool) (w : World) :
    on_option_found X none key value ok w = some (none, w) ∧
    on_section_end X none w = some w := by
  constructor
  · rfl
  · rfl

/-- Claim C14: in a global section every option whose key is not exactly
`disk cache timeout` (such as `mountpoint`, `no shared writes`,
`Disk Cache Timeout`) leaves the section record, the handle and the trace
unchanged; in a disk section every option whose key is neither `mountpoint`
nor `no shared writes` (such as `disk cache timeout`) leaves the entry, the
handle and the trace unchanged; and every option of a disk section leaves the
world unchanged and changes at most the entry. -/
theorem unrecognized_options_ignored (X : Extern) (sec : config_section) (name : CStr)
    (key value : CStr) (ok : Bool) (w : World) (hname : sec.name = some name) :
    (strcasecmp_zero name SECTION_GLOBAL = true → key ≠ "disk cache timeout".data →
      on_option_found X (some sec) key value ok w = some (some sec, w)) ∧
    (strcasecmp_zero name SECTION_GLOBAL = false → ∀ e, sec.data = some e →
      (∃ e1, on_option_found X (some sec) key value ok w
          = some (some { sec with data := some e1 }, w)) ∧
      (key ≠ "mountpoint".data → key ≠ "no shared writes".data →
        on_option_found X (some sec) key value ok w = some (some sec, w))) ∧
    "mountpoint".data ≠ "disk cache timeout".data ∧
    "no shared writes".data ≠ "disk cache timeout".data ∧
    "Disk Cache Timeout".data ≠ "disk cache timeout".data ∧
    "disk cache timeout".data ≠ "mountpoint".data ∧
    "disk cache timeout".data ≠ "no shared writes".data := by
  refine ⟨?_, ?_, by decide, by decide, by decide, by decide, by decide⟩
  · intro hg hk
    rw [on_option_found_global X sec name key value ok w hname hg]
    simp [hk]
  · intro hd e he
    have hrun : ∃ e1 : config_disk_entry,
        on_option_found X (some sec) key value ok w
          = some (some { sec with data := some e1 }, w) ∧
        (key ≠ "mountpoint".data → key ≠ "no shared writes".data → e1 = e) := by
      unfold on_option_found
      simp only [hname, hd, he, on_option_found_disk_eq, Bool.false_eq_true, if_false]
      refine ⟨_, rfl, ?_⟩
      intro hk1 hk2
      simp only [if_neg hk1, hk2, false_and, if_false]
    obtain ⟨e1, h1, h2⟩ := hrun
    refine ⟨⟨e1, h1⟩, ?_⟩
    intro hk1 hk2
    rw [h1, h2 hk1 hk2, ← he]

theorem unrecognized_options_ignored_witness :
    on_option_found example_extern (some { name := some "GLOBAL".data, data := none })
        "mountpoint".data "/a".data true { fs := example_handle, trace := [] }
      = some (some { name := some "GLOBAL".data, data := none },
              { fs := example_handle, trace := [] }) ∧
    on_option_found example_extern
        (some { name := some "disk1".data, data := some { mountpoint := none, flags := 0 } })
        "disk cache timeout".data "30".data true { fs := example_handle, trace := [] }
      = some (some { name := some "disk1".data,
                     data := some { mountpoint := none, flags := 0 } },
              { fs := example_handle, trace := [] }) :=
  ⟨(unrecognized_options_ignored example_extern { name := some "GLOBAL".data, data := none }
      "GLOBAL".data "mountpoint".data "/a".data true { fs := example_handle, trace := [] }
      rfl).1 (by decide) (by decide),
   ((unrecognized_options_ignored example_extern
      { name := some "disk1".data, data := some { mountpoint := none, flags := 0 } }
      "disk1".data "disk cache timeout".data "30".data true
      { fs := example_handle, trace := [] } rfl).2.1 (by decide)
      { mountpoint := none, flags := 0 } rfl).2 (by decide) (by decide)⟩

/-- Claim C16: if handle creation succeeds with a handle without disks and
every candidate path is missing (the tokenizer fires no event for it and it
cannot be opened), `ufs_init` returns a non-null handle that equals the
created handle except for the stored mountpoint: the disk count is zero, no
disk is registered and the timeout is the one of handle creation.  Both
paths were tried by both loaders; no registration call and no timeout write
was made. -/
theorem ufs_init_all_missing (X : Extern) (files : CStr → ConfigFile) (fs : unityfs)
    (mountpoint : Option CStr) (hfresh : fs.disks_count = 0)
    (hmissing : ∀ p ∈ config_file_locations, (files p).events = [] ∧ (files p).text = none) :
    ∃ w, ufs_init X files (some fs) mountpoint = some (some w) ∧
      w.fs = { fs with mountpoint := mountpoint } ∧
      w.fs.disks_count = 0 ∧ w.fs.disk_cache_timeout = fs.disk_cache_timeout ∧
      w.fs.disks = fs.disks ∧
      reads w.trace = config_file_locations ∧ fopens w.trace = config_file_locations ∧
      regs w.trace = [] ∧ timeout_writes w.trace = [] := by
  have h1 := hmissing "/etc/unityfs.conf".data (by simp [config_file_locations])
  have h2 := hmissing "unityfs.conf".data (by simp [config_file_locations])
  refine ⟨{ fs := { fs with mountpoint := mountpoint }
            trace := [Effect.config_read "/etc/unityfs.conf".data,
                      Effect.fopen "/etc/unityfs.conf".data,
                      Effect.config_read "unityfs.conf".data,
                      Effect.fopen "unityfs.conf".data] },
    ?_, rfl, hfresh, rfl, rfl, ?_, ?_, ?_, ?_⟩
  · simp only [ufs_init, config_file_locations, ufs_init_loop, config_read_file, h1.1, h1.2,
      h2.1, h2.2, run_events, add_disks_from_file, hfresh, if_true, gt_iff_lt, Nat.lt_irrefl,
      if_false]
    rfl
  · simp [reads, config_file_locations]
  · simp [fopens, config_file_locations]
  · simp [regs]
  · simp [timeout_writes]

theorem ufs_init_all_missing_witness :
    ∃ w, ufs_init example_extern (fun _ => { events := [], text := none })
        (some example_handle) (some "/mnt".data) = some (some w) ∧
      w.fs = { example_handle with mountpoint := some "/mnt".data } ∧
      w.fs.disks_count = 0 ∧ w.fs.disk_cache_timeout = example_handle.disk_cache_timeout ∧
      w.fs.disks = example_handle.disks ∧
      reads w.trace = config_file_locations ∧ fopens w.trace = config_file_locations ∧
      regs w.trace = [] ∧ timeout_writes w.trace = [] :=
  ufs_init_all_missing example_extern (fun _ => { events := [], text := none }) example_handle
    (some "/mnt".data) rfl (fun _ _ => ⟨rfl, rfl⟩)

theorem ufs_add_disk_timeout (X : Extern) (w : World) (m : Option CStr) (f : Nat) :
    (ufs_add_disk X w m f).fs.disk_cache_timeout = w.fs.disk_cache_timeout := by
  unfold ufs_add_disk
  dsimp only
  split <;> rfl

/-- The legacy loader never writes the timeout. -/
theorem add_disks_loop_timeout (X : Extern) (fuel : Nat) :
    ∀ (t : List Char) (w : World),
      (add_disks_loop X fuel t w).fs.disk_cache_timeout = w.fs.disk_cache_timeout := by
  induction fuel with
  | zero => intro t w; rfl
  | succ fuel ih =>
    intro t w
    cases t with
    | nil => rfl
    | cons c cs => rw [add_disks_loop_cons, ih, ufs_add_disk_timeout]

theorem add_disks_from_file_timeout (X : Extern) (files : CStr → ConfigFile) (p : CStr)
    (w : World) :
    (add_disks_from_file X files p w).fs.disk_cache_timeout = w.fs.disk_cache_timeout := by
  unfold add_disks_from_file
  dsimp only
  split
  · rfl
  · rw [add_disks_loop_timeout]

theorem split_lines_ne_nil (text : List Char) (h : text ≠ []) : split_lines text ≠ [] := by
  obtain ⟨c, cs, hc⟩ := List.exists_cons_of_ne_nil h
  rw [hc, split_lines_getline]
  simp

/-- Claim C18: with a registry that accepts every entry, when the structured
session on a path leaves the handle without disks and the file exists with a
non-empty text (at least one line, no NUL byte), the loop of `ufs_init` stops
at that path: the disks of the handle are exactly the raw text lines of the
file, in order, with flags 0, at least one; the timeout is the one the
structured session left; and the effects end with the open of that path and
the registration calls of its lines, so that no later path is consulted. -/
theorem legacy_fallback_wins (X : Extern) (files : CStr → ConfigFile) (p : CStr)
    (rest : List CStr) (w w1 : World) (text : List Char)
    (hacc : ∀ fs m f, X.accepts fs m f = true)
    (hread : config_read_file X files p w = some w1)
    (hcount : w1.fs.disks_count = 0) (hdisks : w1.fs.disks = [])
    (htext : (files p).text = some text) (hne : text ≠ [])
    (hnul : ∀ c ∈ text, c ≠ Char.ofNat 0) :
    ∃ w2, ufs_init_loop X files (p :: rest) w = some w2 ∧
      w2.fs.disks = (split_lines text).map (fun l => { mountpoint := some l, flags := 0 }) ∧
      w2.fs.disks_count = (split_lines text).length ∧ 1 ≤ (split_lines text).length ∧
      w2.fs.disk_cache_timeout = w1.fs.disk_cache_timeout ∧
      w2.trace = w1.trace ++ Effect.fopen p ::
        (split_lines text).map (fun l => Effect.add_disk (some l) 0) ∧
      reads w2.trace = reads w.trace ++ [p] := by
  obtain ⟨d1, hg1, hr1, _⟩ := config_read_file_grows X files p w w1 hread
  obtain ⟨d2, hg2, hr2, _, hd2⟩ := add_disks_from_file_grows X files p w1
  rw [htext] at hd2
  have hmap : d2 = (split_lines text).map (fun l => Effect.add_disk (some l) 0) := by
    rw [hd2]
    apply List.map_congr_left
    intro l hl
    rw [cstr_eq_self l (fun c hc => hnul c (mem_split_lines text l hl c hc))]
  have hregs : regs d2 = (split_lines text).map (fun l => { mountpoint := some l, flags := 0 }) := by
    rw [hmap, regs_map_add_disk]
  have hlen : 1 ≤ (split_lines text).length :=
    List.length_pos.mpr (split_lines_ne_nil text hne)
  have hc2 : (add_disks_from_file X files p w1).fs.disks_count = (split_lines text).length := by
    rw [(hg2.2.2.2 hacc).2, hcount]
    simp [regs, hregs]
  refine ⟨add_disks_from_file X files p w1, ?_, ?_, hc2, hlen, ?_, ?_, ?_⟩
  · have hpos : (add_disks_from_file X files p w1).fs.disks_count > 0 := by omega
    simp only [ufs_init_loop, hread, hcount, if_true, hpos]
  · rw [(hg2.2.2.2 hacc).1, hdisks]
    simp [regs, hregs]
  · exact add_disks_from_file_timeout X files p w1
  · rw [hg2.1, hmap]
  · rw [hg2.1, hg1.1]
    simp [reads_append, reads, hr1, hr2]

theorem legacy_fallback_wins_witness :
    ∃ w2, ufs_init_loop example_extern example_global_only_files
        ("unityfs.conf".data :: ["/later.conf".data]) { fs := example_handle, trace := [] }
        = some w2 ∧
      w2.fs.disks = (split_lines "[global]\ndisk cache timeout = 30\n".data).map
        (fun l => { mountpoint := some l, flags := 0 }) ∧
      w2.fs.disks_count = (split_lines "[global]\ndisk cache timeout = 30\n".data).length ∧
      1 ≤ (split_lines "[global]\ndisk cache timeout = 30\n".data).length ∧
      w2.fs.disk_cache_timeout = 30 ∧
      w2.trace = [Effect.config_read "unityfs.conf".data, Effect.set_timeout 30]
        ++ Effect.fopen "unityfs.conf".data ::
          (split_lines "[global]\ndisk cache timeout = 30\n".data).map
            (fun l => Effect.add_disk (some l) 0) ∧
      reads w2.trace = reads [] ++ ["unityfs.conf".data] :=
  legacy_fallback_wins example_extern example_global_only_files "unityfs.conf".data
    ["/later.conf".data] { fs := example_handle, trace := [] }
    { fs := { example_handle with disk_cache_timeout := 30 }
      trace := [Effect.config_read "unityfs.conf".data, Effect.set_timeout 30] }
    "[global]\ndisk cache timeout = 30\n".data (fun _ _ _ => rfl) (by decide) rfl rfl rfl
    (by decide) (by decide)

theorem legacy_fallback_example :
    (ufs_init example_extern example_global_only_files (some example_handle) none).map
        (fun r => r.map (fun w => (w.fs.disks, w.fs.disk_cache_timeout)))
      = some (some ([{ mountpoint := some "[global]".data, flags := 0 },
                     { mountpoint := some "disk cache timeout = 30".data, flags := 0 }], 30)) := by
  decide

/-- On a section record satisfying the invariant `on_option_found` returns
without fault, keeps the name and the presence of the entry, and changes the
world only in a global section. -/
theorem on_option_found_keeps_kind (X : Extern) (sec : config_section) (hinv : section_inv sec)
    (key value : CStr) (ok : Bool) (w : World) :
    ∃ sec1 w1, on_option_found X (some sec) key value ok w = some (some sec1, w1) ∧
      sec1.name = sec.name ∧ sec1.data.isSome = sec.data.isSome ∧ section_inv sec1 := by
  obtain ⟨name, hname, hdata⟩ := hinv
  by_cases hg : strcasecmp_zero name SECTION_GLOBAL = true
  · exact ⟨sec, _, on_option_found_global X sec name key value ok w hname hg, rfl, rfl,
      name, hname, hdata⟩
  · have hg2 : strcasecmp_zero name SECTION_GLOBAL = false := by simpa using hg
    have hsome : sec.data.isSome = true := by rw [hdata, hg2]; rfl
    obtain ⟨e, he⟩ := Option.isSome_iff_exists.mp hsome
    have h : ∃ e1, on_option_found X (some sec) key value ok w
        = some (some { sec with data := some e1 }, w) := by
      unfold on_option_found
      simp only [hname, hg2, he, on_option_found_disk_eq, Bool.false_eq_true, if_false]
      exact ⟨_, rfl⟩
    obtain ⟨e1, h1⟩ := h
    exact ⟨_, w, h1, rfl, by rw [hsome]; rfl, name, hname, by simp [hg2]⟩

/-- Claim C19: with successful allocations `on_section_start` returns a
section record that holds the name, whose data pointer is non-null exactly
when the name differs from `global` ignoring case, and whose entry, when
present, has the mountpoint unset and flags 0.  This invariant (name present,
entry present exactly for a non-global name) is kept by every
`on_option_found` call, which returns without fault and keeps the name and
the presence of the entry; so the name comparison of `on_option_found` and
`on_section_end` agrees with the kind decided at the start, and
`on_section_end` returns without fault as well. -/
theorem section_kind_invariant (X : Extern) (name key value : CStr) (ok : Bool) (w : World) :
    (∃ sec, on_section_start Allocs.ok name = some sec ∧ sec.name = some name ∧
      (sec.data.isSome = true ↔ strcasecmp_zero name SECTION_GLOBAL = false) ∧
      (∀ e, sec.data = some e → e = { mountpoint := none, flags := 0 }) ∧
      section_inv sec) ∧
    (∀ sec0, section_inv sec0 →
      (∃ sec1 w1, on_option_found X (some sec0) key value ok w = some (some sec1, w1) ∧
        sec1.name = sec0.name ∧ sec1.data.isSome = sec0.data.isSome ∧ section_inv sec1) ∧
      (∃ w1, on_section_end X (some sec0) w = some w1)) := by
  constructor
  · refine ⟨_, on_section_start_ok name, rfl, ?_, ?_, ?_⟩
    · by_cases hg : strcasecmp_zero name SECTION_GLOBAL = true
      · simp [hg]
      · simp [hg]
    · intro e he
      by_cases hg : strcasecmp_zero name SECTION_GLOBAL = true
      · simp [hg] at he
      · simp only [hg, Bool.false_eq_true, if_false, Option.some.injEq] at he
        exact he.symm
    · exact on_section_start_inv Allocs.ok name rfl _ (on_section_start_ok name)
  · intro sec0 hinv
    exact ⟨on_option_found_keeps_kind X sec0 hinv key value ok w,
      on_section_end_inv X sec0 hinv w⟩

theorem section_kind_invariant_witness :
    ∃ sec1 w1, on_option_found example_extern
        (some { name := some "disk1".data, data := some { mountpoint := none, flags := 0 } })
        "mountpoint".data "/a".data true { fs := example_handle, trace := [] }
        = some (some sec1, w1) ∧
      sec1.name = some "disk1".data ∧ sec1.data.isSome = true ∧ section_inv sec1 :=
  ((section_kind_invariant example_extern "disk1".data "mountpoint".data "/a".data true
      { fs := example_handle, trace := [] }).2
    { name := some "disk1".data, data := some { mountpoint := none, flags := 0 } }
    ⟨"disk1".data, rfl, by decide⟩).1

/-- Claim C20: whenever `getline` succeeds, the line it returns has length at
least 1, so the index `nread - 1` used by `add_disks_from_file` to test for
the newline is within the line (its last character exists); the line and the
unread rest make up the stream.  `getline` fails only at the end of the
stream.  An empty line is read as the single newline, and a final line
without newline is read whole.  One iteration of the loop of
`add_disks_from_file` on that stream tests the last character of this
non-empty line, registers the line and goes on with the rest. -/
theorem getline_length_pos (stream line rest : List Char)
    (h : getline stream = some (line, rest)) :
    1 ≤ line.length ∧ line.length - 1 < line.length ∧
    (∃ c, line.getLast? = some c ∧ line.get? (line.length - 1) = some c) ∧
    line ++ rest = stream ∧
    (∀ s : List Char, getline s = none ↔ s = []) ∧
    getline "\n/y".data = some ("\n".data, "/y".data) ∧
    getline "/y".data = some ("/y".data, []) ∧
    (∀ (X : Extern) (fuel : Nat) (w : World),
      add_disks_loop X (fuel + 1) stream w =
        add_disks_loop X fuel rest
          (ufs_add_disk X w
            (some (cstr (if line.getLast? = some '\n' then line.dropLast else line))) 0)) := by
  have hline : line ≠ [] ∧ line ++ rest = stream := by
    cases stream with
    | nil => simp [getline] at h
    | cons c cs =>
      simp only [getline, Option.some.injEq] at h
      have h1 := getline_split_fst_ne_nil c cs
      have h2 := getline_split_append (c :: cs)
      rw [h] at h1 h2
      exact ⟨h1, h2⟩
  have hpos : 0 < line.length := List.length_pos.mpr hline.1
  refine ⟨hpos, by omega, ?_, hline.2, ?_, by decide, by decide, ?_⟩
  · refine ⟨line.getLast hline.1, List.getLast?_eq_getLast _ hline.1, ?_⟩
    rw [List.getLast_eq_getElem]
    simp [List.get?_eq_getElem?, List.getElem?_eq_getElem]
  · intro s
    cases s with
    | nil => simp [getline]
    | cons c cs => simp [getline]
  · intro X fuel w
    cases stream with
    | nil => simp [getline] at h
    | cons c cs =>
      simp only [getline, Option.some.injEq] at h
      rw [add_disks_loop_cons, h]

theorem getline_length_pos_witness :
    1 ≤ "/x\n".data.length ∧ "/x\n".data.length - 1 < "/x\n".data.length ∧
    (∃ c, "/x\n".data.getLast? = some c ∧ "/x\n".data.get? ("/x\n".data.length - 1) = some c) ∧
    "/x\n".data ++ "/y".data = "/x\n/y".data ∧
    (∀ s : List Char, getline s = none ↔ s = []) ∧
    getline "\n/y".data = some ("\n".data, "/y".data) ∧
    getline "/y".data = some ("/y".data, []) ∧
    (∀ (X : Extern) (fuel : Nat) (w : World),
      add_disks_loop X (fuel + 1) "/x\n/y".data w =
        add_disks_loop X fuel "/y".data
          (ufs_add_disk X w
            (some (cstr (if "/x\n".data.getLast? = some '\n' then "/x\n".data.dropLast
                         else "/x\n".data))) 0)) :=
  getline_length_pos "/x\n/y".data "/x\n".data "/y".data (by decide)

theorem toDigitsCore_append (fuel : Nat) :
    ∀ n ds, Nat.toDigitsCore 10 fuel n ds = Nat.toDigitsCore 10 fuel n [] ++ ds := by
  induction fuel with
  | zero => intro n ds; rfl
  | succ fuel ih =>
    intro n ds
    by_cases h0 : n / 10 = 0
    · simp [Nat.toDigitsCore, h0]
    · simp only [Nat.toDigitsCore, h0, if_false]
      rw [ih (n / 10) (Nat.digitChar (n % 10) :: ds), ih (n / 10) [Nat.digitChar (n % 10)]]
      simp

theorem strtol_digits_stop (n : Nat) (rest : List Char) (h : no_digit_next rest) :
    strtol_digits n rest = n := by
  cases rest with
  | nil => rfl
  | cons c cs =>
    have hc := h c rfl
    simp [strtol_digits, hc]

theorem strtol_digits_zeros (k : Nat) (l : List Char) :
    strtol_digits 0 (List.replicate k '0' ++ l) = strtol_digits 0 l := by
  induction k with
  | zero => rfl
  | succ k ih =>
    have hd : isdigit '0' = true := by decide
    have hz : 10 * 0 + ('0'.toNat - 48) = 0 := by decide
    simp only [List.replicate_succ, List.cons_append, strtol_digits, hd, if_true, hz]
    exact ih

/-- The digit loop of `strtol` reads a numeral of `n` as `n`. -/
theorem strtol_digits_numeral (k n : Nat) (rest : List Char) (h : no_digit_next rest) :
    strtol_digits 0 (numeral k n ++ rest) = n := by
  unfold numeral
  rw [List.append_assoc, strtol_digits_zeros]
  have hrepr : (Nat.repr n).data = Nat.toDigitsCore 10 (n + 1) n [] := rfl
  rw [hrepr, ← toDigitsCore_append]
  obtain ⟨j, hj⟩ := strtol_digits_toDigitsCore (n + 1) n rest (by omega)
  rw [hj 0]
  simp only [Nat.zero_mul, Nat.zero_add]
  exact strtol_digits_stop n rest h

theorem numeral_head (k n : Nat) (rest : List Char) :
    ∃ c t, numeral k n ++ rest = c :: t ∧ isdigit c = true := by
  unfold numeral
  cases k with
  | zero =>
    obtain ⟨c, t, hc, hd⟩ := toDigitsCore_head (n + 1) n [] (by omega)
    have hrepr : (Nat.repr n).data = Nat.toDigitsCore 10 (n + 1) n [] := rfl
    refine ⟨c, t ++ rest, ?_, hd⟩
    rw [hrepr, hc]
    rfl
  | succ k =>
    exact ⟨'0', List.replicate k '0' ++ ((Nat.repr n).data ++ rest),
      by simp [List.replicate_succ], by decide⟩

theorem dropWhile_isspace_append (ws x : List Char) (hws : ∀ c ∈ ws, isspace c = true)
    (hx : ∀ c, x.head? = some c → isspace c = false) :
    (ws ++ x).dropWhile isspace = x := by
  induction ws with
  | nil =>
    cases x with
    | nil => rfl
    | cons c cs => simp [List.dropWhile_cons, hx c rfl]
  | cons a t ih =>
    have ha := hws a (List.mem_cons_self _ _)
    simp only [List.cons_append, List.dropWhile_cons, ha, if_true]
    exact ih (fun c hc => hws c (List.mem_cons_of_mem _ hc))

/-- How `strtol` reads white space, an optional sign and what follows. -/
theorem strtol_shape (ws sign body : List Char) (hws : ∀ c ∈ ws, isspace c = true)
    (hsign : is_sign sign)
    (hbody : sign = [] → ∀ c, body.head? = some c → isspace c = false ∧ c ≠ '+' ∧ c ≠ '-') :
    strtol (ws ++ (sign ++ body)) =
      if sign = ['-'] then max (-(strtol_digits 0 body : Int)) LONG_MIN
      else min (strtol_digits 0 body : Int) LONG_MAX := by
  rcases hsign with h | h | h
  · subst h
    have hb := hbody rfl
    have hdrop := dropWhile_isspace_append ws body hws (fun c hc => (hb c hc).1)
    unfold strtol
    simp only [List.nil_append, hdrop]
    have h1 : body.head? ≠ some '-' := fun hc => (hb _ hc).2.2 rfl
    have h2 : body.head? ≠ some '+' := fun hc => (hb _ hc).2.1 rfl
    rw [if_neg h1, if_neg h2, if_neg (by simp)]
  · subst h
    have hdrop := dropWhile_isspace_append ws ('+' :: body) hws
      (fun c hc => by
        simp only [List.head?_cons, Option.some.injEq] at hc
        subst hc
        decide)
    unfold strtol
    simp only [List.singleton_append, hdrop, List.head?_cons, List.tail_cons]
    rw [if_pos trivial, if_neg (show ¬ (['+'] = ['-']) by decide),
      if_neg (show ¬ (some '+' = some '-') by decide)]
  · subst h
    have hdrop := dropWhile_isspace_append ws ('-' :: body) hws
      (fun c hc => by
        simp only [List.head?_cons, Option.some.injEq] at hc
        subst hc
        decide)
    unfold strtol
    simp only [List.singleton_append, hdrop, List.head?_cons, List.tail_cons]
    rw [if_pos trivial, if_pos trivial]

/-- A value that starts with no number is read as 0 by `atoi`. -/
theorem atoi_no_number (value : List Char) (h : no_number value) : atoi value = 0 := by
  obtain ⟨ws, sign, rest, hv, hws, hsign, hnd, hrest⟩ := h
  subst hv
  unfold atoi
  rw [strtol_shape ws sign rest hws hsign hrest, strtol_digits_stop 0 rest hnd]
  split <;> decide

theorem leading_number_body (sign : List Char) (k n : Nat) (rest : List Char) :
    sign = [] → ∀ c, (numeral k n ++ rest).head? = some c →
      isspace c = false ∧ c ≠ '+' ∧ c ≠ '-' := by
  intro _ c hc
  obtain ⟨d, t, hd, hdig⟩ := numeral_head k n rest
  rw [hd] at hc
  simp only [List.head?_cons, Option.some.injEq] at hc
  subst hc
  obtain ⟨h1, h2, h3⟩ := isdigit_not_space_sign d hdig
  exact ⟨h1, h3, h2⟩

/-- A value that starts with a numeral of `n` without sign or after `+` is
read as `n` by `atoi`, when `n` is in the range of `int`. -/
theorem atoi_leading_number_pos (value sign : List Char) (n : Nat)
    (h : leading_number value sign n) (hsign : sign = [] ∨ sign = ['+'])
    (hmax : (n : Int) ≤ INT_MAX) : atoi value = n := by
  obtain ⟨ws, k, rest, hv, hws, hnd⟩ := h
  subst hv
  have hs : is_sign sign := by rcases hsign with h | h <;> simp [is_sign, h]
  have hne : sign ≠ ['-'] := by rcases hsign with h | h <;> simp [h]
  unfold atoi
  rw [strtol_shape ws sign _ hws hs (leading_number_body sign k n rest),
    strtol_digits_numeral k n rest hnd, if_neg hne]
  unfold INT_MAX at hmax
  have hmin : min (n : Int) LONG_MAX = n := min_eq_left (by unfold LONG_MAX; omega)
  rw [hmin]
  unfold long_to_int
  omega

/-- A value that starts with `-` and a numeral of `n` is read as `-n` by
`atoi`, when `-n` is in the range of `int`. -/
theorem atoi_leading_number_neg (value : List Char) (n : Nat)
    (h : leading_number value ['-'] n) (hmax : n ≤ 2147483648) : atoi value = -(n : Int) := by
  obtain ⟨ws, k, rest, hv, hws, hnd⟩ := h
  subst hv
  unfold atoi
  rw [strtol_shape ws ['-'] _ hws (by simp [is_sign]) (by simp),
    strtol_digits_numeral k n rest hnd, if_pos rfl]
  have hmaxz : max (-(n : Int)) LONG_MIN = -(n : Int) := max_eq_left (by unfold LONG_MIN; omega)
  rw [hmaxz]
  unfold long_to_int
  omega

theorem no_number_abc : no_number "abc".data := by
  refine ⟨[], [], "abc".data, rfl, ?_, Or.inl rfl, ?_, ?_⟩
  · intro c hc; cases hc
  · intro c hc; cases hc; decide
  · intro _ c hc; cases hc; decide

theorem no_number_empty : no_number [] := by
  refine ⟨[], [], [], rfl, ?_, Or.inl rfl, ?_, ?_⟩
  · intro c hc; cases hc
  · intro c hc; cases hc
  · intro _ c hc; cases hc

theorem leading_number_literal (sign rest : List Char) (n : Nat)
    (hrest : no_digit_next rest) :
    leading_number (sign ++ ((Nat.repr n).data ++ rest)) sign n := by
  refine ⟨[], 0, rest, rfl, ?_, hrest⟩
  intro c hc; cases hc

/-- Claim C8, amended: in a global section, the option `disk cache timeout`
is ignored (record, handle and trace unchanged) whenever its value, after
optional leading white space, either has no decimal digit after its optional
sign (`abc`, the empty string), or has there a numeral of zero (`0`), or has
the sign `-` and a numeral of a number up to 2147483648 (`-5`), whatever
follows the digits; in particular a section that sets the timeout to 30 and
then gives such a value ends with the timeout 30, written once.  A value
whose numeral, without sign or after `+`, denotes `n` with `0 < n ≤ INT_MAX`
is not ignored, also when other characters follow (`30x`): the timeout
becomes `n`. -/
theorem timeout_value_ignored (X : Extern) (sec : config_section) (name : CStr)
    (value : CStr) (ok : Bool) (w : World)
    (hname : sec.name = some name) (hglobal : strcasecmp_zero name SECTION_GLOBAL = true)
    (hval : no_number value ∨ (∃ sign, is_sign sign ∧ leading_number value sign 0) ∨
      (∃ n, n ≤ 2147483648 ∧ leading_number value ['-'] n)) :
    on_option_found X (some sec) "disk cache timeout".data value ok w = some (some sec, w) ∧
    run_events X
        (SectionBlock.events
          { name := name, allocs := Allocs.ok,
            options := [{ key := "disk cache timeout".data, value := "30".data, strdup_ok := ok },
                        { key := "disk cache timeout".data, value := value, strdup_ok := ok }] })
        none w
      = some { fs := { w.fs with disk_cache_timeout := 30 }
               trace := w.trace ++ [Effect.set_timeout 30] } ∧
    (no_number "abc".data ∧ no_number [] ∧ leading_number "0".data [] 0 ∧
      leading_number "-5".data ['-'] 5 ∧ leading_number "30x".data [] 30) ∧
    (∀ (v sign : List Char) (n : Nat), (sign = [] ∨ sign = ['+']) → leading_number v sign n →
      0 < n → (n : Int) ≤ INT_MAX →
      on_option_found X (some sec) "disk cache timeout".data v ok w =
        some (some sec,
          { fs := { w.fs with disk_cache_timeout := n }
            trace := w.trace ++ [Effect.set_timeout n] })) := by
  have hatoi : atoi value ≤ 0 := by
    rcases hval with h | ⟨sign, hs, h⟩ | ⟨n, hn, h⟩
    · rw [atoi_no_number value h]
    · rcases hs with hs | hs | hs
      · rw [atoi_leading_number_pos value sign 0 h (Or.inl hs) (by decide)]; decide
      · rw [atoi_leading_number_pos value sign 0 h (Or.inr hs) (by decide)]; decide
      · subst hs
        rw [atoi_leading_number_neg value 0 h (by decide)]; decide
    · rw [atoi_leading_number_neg value n h hn]
      omega
  have hold := timeout_ignored_of_atoi_nonpos X sec name value ok w hname hglobal hatoi
  refine ⟨hold.1, hold.2.1, ⟨no_number_abc, no_number_empty, ?_, ?_, ?_⟩, ?_⟩
  · exact leading_number_literal [] [] 0 (fun c hc => by cases hc)
  · exact leading_number_literal ['-'] [] 5 (fun c hc => by cases hc)
  · exact leading_number_literal [] "x".data 30 (fun c hc => by cases hc; decide)
  · intro v sign n hsign hv hpos hmax
    have hlt : n % 2 ^ 32 = n := Nat.mod_eq_of_lt (by unfold INT_MAX at hmax; omega)
    have hgt : (0 : Int) < (n : Int) := by omega
    rw [on_option_found_global X sec name _ v ok w hname hglobal,
      atoi_leading_number_pos v sign n hv hsign hmax]
    simp only [true_and, hgt, if_true, Int.toNat_ofNat, hlt, set_disk_cache_timeout]

theorem timeout_value_ignored_witness :
    on_option_found example_extern (some { name := some "global".data, data := none })
        "disk cache timeout".data "abc".data true { fs := example_handle, trace := [] }
      = some (some { name := some "global".data, data := none },
          { fs := example_handle, trace := [] }) :=
  (timeout_value_ignored example_extern _ "global".data "abc".data true _ rfl (by decide)
    (Or.inl no_number_abc)).1

/-- Values outside the range of `int` are converted by wrap-around: a
negative decimal integer below `INT_MIN` can set the timeout, and a positive
one above `INT_MAX` can be ignored. -/
theorem atoi_out_of_range :
    atoi "-2147483649".data = 2147483647 ∧ atoi "2147483648x".data = -2147483648 := by
  decide

end UnityFS
